import Mathlib

/-!
Verification of the moltworker squad subsystem (task queue / execution ledger,
persona manager, agent orchestrator, workflow engine) against its
natural-language specification.

The TypeScript sources are shallowly embedded: JS `Map`s become association
lists in first-insertion iteration order, JS numbers and millisecond
timestamps become rationals, and every stateful method becomes an explicit
state-passing function.  JS `Array.prototype.sort` (stable since ES2019) is
modelled by `List.insertionSort`, which is stable in the same sense.
-/

namespace Moltworker

/-- JS numbers / millisecond timestamps, modelled as rationals. -/
abbrev Millis := ℚ

/-- Rendering of a JS number as a string.  Integral values (the only ones any
claim exercises) print exactly as in JS; non-integral values get an abstract
rendering. -/
def jsNumToString (q : ℚ) : String :=
  if q.den = 1 then toString q.num
  else toString q.num ++ "/" ++ toString q.den

/-- JS `Map.set`: overwrite in place when the key is present, else append
(JS Maps iterate in first-insertion order). -/
def mapSet {α : Type} (k : String) (v : α) : List (String × α) → List (String × α)
  | [] => [(k, v)]
  | (k', v') :: rest => if k' = k then (k, v) :: rest else (k', v') :: mapSet k v rest

/-- In-place mutation of the first entry satisfying `p` (a JS `Map.get`
followed by field assignments on the retrieved object). -/
def updateFirst {α : Type} (p : α → Bool) (f : α → α) : List α → List α
  | [] => []
  | x :: rest => if p x then f x :: rest else x :: updateFirst p f rest

/-- Digit-list to natural number. -/
def digitsToNat (cs : List Char) : ℕ :=
  cs.foldl (fun n c => 10 * n + (c.toNat - 48)) 0

/-- JS whitespace for `trim` (space, tab, newline, carriage return cover
every use in this code base). -/
def isJsWhitespace (c : Char) : Bool :=
  decide (c.toNat = 32) || decide (c.toNat = 9) ||
  decide (c.toNat = 10) || decide (c.toNat = 13)

/-- JS `String.prototype.trim` (kernel-computable char-list version). -/
def strTrim (s : String) : String :=
  String.mk (((s.data.dropWhile isJsWhitespace).reverse.dropWhile isJsWhitespace).reverse)

/-- JS `String.prototype.startsWith` for a plain prefix string. -/
def strStartsWith (s pre : String) : Bool :=
  pre.data.isPrefixOf s.data

/-- JS `String.prototype.endsWith` for a plain suffix string. -/
def strEndsWith (s suf : String) : Bool :=
  suf.data.reverse.isPrefixOf s.data.reverse

/-- ASCII lowercase of one character (the conditions in this code base are
ASCII). -/
def charToLower (c : Char) : Char :=
  if 65 ≤ c.toNat ∧ c.toNat ≤ 90 then Char.ofNat (c.toNat + 32) else c

/-- JS `String.prototype.toLowerCase` (ASCII). -/
def strToLower (s : String) : String :=
  String.mk (s.data.map charToLower)

/-- Fuel-driven splitter behind `strSplitOn` (structural, so the kernel can
evaluate it; the fuel is the input length, which always suffices). -/
def splitOnClFuel (sep : List Char) : ℕ → List Char → List (List Char)
  | _, [] => [[]]
  | 0, l => [l]
  | fuel + 1, c :: rest =>
      if sep ≠ [] ∧ sep.isPrefixOf (c :: rest) = true then
        [] :: splitOnClFuel sep fuel (List.drop (sep.length - 1) rest)
      else
        match splitOnClFuel sep fuel rest with
        | [] => [[c]]
        | seg :: segs => (c :: seg) :: segs

/-- JS `String.prototype.split` with a non-empty plain-string separator:
non-overlapping occurrences, left to right. -/
def strSplitOn (s sep : String) : List String :=
  (splitOnClFuel sep.data s.data.length s.data).map String.mk

/-- Join with a separator (kernel-computable `Array.prototype.join` /
`String.intercalate`). -/
def strIntercalate (sep : String) : List String → String
  | [] => ""
  | x :: rest => rest.foldl (fun acc y => acc ++ sep ++ y) x

/-- Drop the first `n` characters (JS `slice(n)` on the code points used
here). -/
def strDrop (s : String) (n : ℕ) : String :=
  String.mk (s.data.drop n)

/-- Drop the last `n` characters (JS `slice(0, -n)`). -/
def strDropRight (s : String) (n : ℕ) : String :=
  String.mk (s.data.take (s.data.length - n))

/-- A canonical decimal array index, as JS property lookup sees it
(`"0"`, `"1"`, ...; `"01"` or signed forms are not canonical). -/
def strCanonicalIndex (s : String) : Option ℕ :=
  if s.data ≠ [] ∧ s.data.all Char.isDigit = true ∧
      (s = "0" ∨ s.data.head? ≠ some (Char.ofNat 48)) then
    some (digitsToNat s.data)
  else none

/-- JS `String.prototype.includes` (every string contains `""`). -/
def hasSubstr (needle hay : String) : Bool :=
  if needle = "" then true else decide (2 ≤ (strSplitOn hay needle).length)

/-- JS `String.prototype.replace` with a plain-string pattern: replace the
first occurrence only (identity when the pattern is absent). -/
def replaceFirst (s pat repl : String) : String :=
  if pat = "" then s
  else
    match strSplitOn s pat with
    | [] => s
    | [_] => s
    | x :: rest => x ++ repl ++ strIntercalate pat rest

/-- Membership in the character class `[\d.]`. -/
def isDigitOrDot (c : Char) : Bool :=
  c.isDigit || c = Char.ofNat 46

/-- The first maximal run of `[\d.]` characters, i.e. the result of matching
the regex `/[\d.]+/` without the global flag. -/
def firstDigitDotRunAux : List Char → Option (List Char)
  | [] => none
  | c :: rest =>
      if isDigitOrDot c then some (c :: rest.takeWhile isDigitOrDot)
      else firstDigitDotRunAux rest

/-- String-level wrapper for `firstDigitDotRunAux`. -/
def firstDigitDotRun (s : String) : Option String :=
  (firstDigitDotRunAux s.data).map String.mk

/-- JS `parseFloat` on the digit-and-dot strings produced by the regexes in
this code base: parse the longest valid numeric prefix
(`digits [. digits]` or `. digits`); `none` models `NaN`. -/
def jsParseFloat (s : String) : Option ℚ :=
  let cs := s.data
  let intPart := cs.takeWhile Char.isDigit
  let rest := cs.dropWhile Char.isDigit
  match rest with
  | c :: rest' =>
      if c = Char.ofNat 46 then
        let fracPart := rest'.takeWhile Char.isDigit
        if intPart = [] ∧ fracPart = [] then none
        else some ((digitsToNat intPart : ℚ) +
          (digitsToNat fracPart : ℚ) / ((10 : ℚ) ^ fracPart.length))
      else if intPart = [] then none
      else some (digitsToNat intPart : ℚ)
  | [] => if intPart = [] then none else some (digitsToNat intPart : ℚ)

/-- The trailing floating-point literal of a condition text, as the claim
reads it: the maximal digit-and-dot suffix, parsed as a float. -/
def trailingFloatLiteral (s : String) : Option ℚ :=
  let suffix := String.mk ((s.data.reverse.takeWhile isDigitOrDot).reverse)
  if suffix = "" then none else jsParseFloat suffix

/-- JS truthiness of an optional string (`undefined` and `""` are falsy). -/
def strTruthy : Option String → Bool
  | some s => !(decide (s = ""))
  | none => false

/-- JS truthiness of `xs?.length` (absent or empty lists are falsy). -/
def listTruthy {α : Type} : Option (List α) → Bool
  | some l => decide (0 < l.length)
  | none => false

/-- JS truthiness of an optional number (`undefined` and `0` are falsy; the
numbers in this code base are never `NaN`). -/
def numTruthy : Option ℚ → Bool
  | some q => !(decide (q = 0))
  | none => false

/-- JS truthiness of an optional boolean. -/
def boolTruthy : Option Bool → Bool
  | some b => b
  | none => false

/-! ### Data model (`types.ts`) -/

/-- Task lifecycle states (`TaskStatus` in `types.ts`). -/
inductive TaskStatus
  | backlog
  | em_progresso
  | bloqueado
  | review
  | concluido
deriving DecidableEq

/-- A task row (`Task` in `types.ts`; `created_at` / `updated_at` carried as
opaque strings). -/
structure Task where
  id : String
  squad_id : String
  titulo : String
  descricao : Option String
  status : TaskStatus
  motivo_bloqueio : Option String
  assigned_agent_id : Option String
  priority : Option ℚ
  created_at : String
  updated_at : String
deriving DecidableEq

/-- A pending queue entry (`QueuedTask` in `queue.ts`). -/
structure QueuedTask where
  task : Task
  priority : ℚ
  queuedAt : Millis
  attempts : ℕ
  lastAttempt : Option Millis
deriving DecidableEq

/-- Execution log levels (`ExecutionLog['level']`). -/
inductive LogLevel
  | info
  | warn
  | error
  | debug
deriving DecidableEq

/-- One execution log entry (`ExecutionLog` in `types.ts`; the `unknown`
payload is carried as an opaque optional string). -/
structure ExecutionLog where
  timestamp : Millis
  level : LogLevel
  message : String
  data : Option String
deriving DecidableEq

/-- Execution status (`TaskExecution['status']`). -/
inductive ExecStatus
  | pending
  | running
  | completed
  | failed
  | blocked
deriving DecidableEq

/-- A tracked execution (`TaskExecution` in `types.ts`; the `unknown` result is
carried as an opaque optional string). -/
structure TaskExecution where
  id : String
  taskId : String
  agentId : String
  status : ExecStatus
  progress : ℚ
  logs : List ExecutionLog
  result : Option String
  error : Option String
  startedAt : Millis
  completedAt : Option Millis
deriving DecidableEq

/-- Per-execution queue bookkeeping (`ExecutionState` in `queue.ts`). -/
structure ExecutionState where
  execution : TaskExecution
  logs : List ExecutionLog
  startTime : Millis
deriving DecidableEq

/-! ### TaskQueue (`queue.ts`) -/

/-- The TaskQueue's mutable state plus its constructor options. -/
structure QueueState where
  queue : List QueuedTask
  executions : List (String × ExecutionState)
  maxRetries : ℕ
  retryDelayMs : Millis
deriving DecidableEq

/-- A fresh queue with the source defaults (`maxRetries: 3`,
`retryDelayMs: 5000`). -/
def QueueState.empty : QueueState :=
  { queue := [], executions := [], maxRetries := 3, retryDelayMs := 5000 }

namespace TaskQueue

/-- `Map.set` on the pending queue, which is keyed by task id. -/
def queueSet (qt : QueuedTask) : List QueuedTask → List QueuedTask
  | [] => [qt]
  | x :: rest => if x.task.id = qt.task.id then qt :: rest else x :: queueSet qt rest

/-- `enqueue(task, priority?)`: builds a fresh entry (attempts 0, no
lastAttempt) and `Map.set`s it under the task id, overwriting any existing
entry wholesale. -/
def enqueue (task : Task) (priority : Option ℚ) (now : Millis) (qs : QueueState) :
    QueueState :=
  let qt : QueuedTask :=
    { task := task
      priority := priority.getD (task.priority.getD 0)
      queuedAt := now
      attempts := 0
      lastAttempt := none }
  { qs with queue := queueSet qt qs.queue }

/-- `dequeue(taskId)`: remove and return the task, or nothing if absent. -/
def dequeue (taskId : String) (qs : QueueState) : Option Task × QueueState :=
  match qs.queue.find? (fun qt => decide (qt.task.id = taskId)) with
  | some qt =>
      (some qt.task,
       { qs with queue := qs.queue.filter (fun x => !(decide (x.task.id = taskId))) })
  | none => (none, qs)

/-- The `getNext` sort comparator `(a, b) => b.priority - a.priority || a.queuedAt - b.queuedAt`
as a "may come first" relation: higher priority first, then earlier enqueue. -/
def qLe (a b : QueuedTask) : Prop :=
  b.priority < a.priority ∨ (a.priority = b.priority ∧ a.queuedAt ≤ b.queuedAt)

instance : DecidableRel qLe := fun a b => by unfold qLe; infer_instance

instance : IsTotal QueuedTask qLe where
  total a b := by
    unfold qLe
    rcases lt_trichotomy a.priority b.priority with h | h | h
    · exact Or.inr (Or.inl h)
    · rcases le_total a.queuedAt b.queuedAt with h' | h'
      · exact Or.inl (Or.inr ⟨h, h'⟩)
      · exact Or.inr (Or.inr ⟨h.symm, h'⟩)
    · exact Or.inl (Or.inl h)

instance : IsTrans QueuedTask qLe where
  trans a b c hab hbc := by
    unfold qLe at *
    rcases hab with h | ⟨he, hq⟩
    · rcases hbc with h' | ⟨he', _⟩
      · exact Or.inl (h'.trans h)
      · exact Or.inl (he' ▸ h)
    · rcases hbc with h' | ⟨he', hq'⟩
      · exact Or.inl (he ▸ h')
      · exact Or.inr ⟨he.trans he', hq.trans hq'⟩

/-- The retry-eligibility test from `getNext`'s inner `find` callback:
attempts 0, or no recorded lastAttempt, or the retry delay has elapsed. -/
def retryEligibleB (now retryDelayMs : Millis) (qt : QueuedTask) : Bool :=
  if qt.attempts = 0 then true
  else
    match qt.lastAttempt with
    | none => true
    | some la => decide (retryDelayMs ≤ now - la)

/-- `getNext()`: sort by priority descending then enqueue time ascending
(stable); if the head is throttled by the retry delay, scan the sorted list
for the first eligible entry. -/
def getNext (now : Millis) (qs : QueueState) : Option Task :=
  if qs.queue.isEmpty then none
  else
    let sorted := List.insertionSort qLe qs.queue
    match sorted with
    | [] => none
    | next :: _ =>
      if 0 < next.attempts then
        match next.lastAttempt with
        | some la =>
          if now - la < qs.retryDelayMs then
            (sorted.find? (retryEligibleB now qs.retryDelayMs)).map (·.task)
          else some next.task
        | none => some next.task
      else some next.task

/-- The field assignment performed by `updatePriority`. -/
def setPriority (priority : ℚ) (qt : QueuedTask) : QueuedTask :=
  { qt with priority := priority }

/-- `updatePriority(taskId, priority)` (result flag dropped; state part only). -/
def updatePriority (taskId : String) (priority : ℚ) (qs : QueueState) : QueueState :=
  let queue' :=
    updateFirst (fun qt => decide (qt.task.id = taskId)) (setPriority priority)
      qs.queue
  { qs with queue := queue' }

/-- The field assignments performed by `markAttempt`. -/
def bumpAttempt (now : Millis) (qt : QueuedTask) : QueuedTask :=
  { qt with attempts := qt.attempts + 1, lastAttempt := some now }

/-- `markAttempt(taskId)`: bump attempts and refresh lastAttempt. -/
def markAttempt (taskId : String) (now : Millis) (qs : QueueState) : QueueState :=
  let queue' :=
    updateFirst (fun qt => decide (qt.task.id = taskId)) (bumpAttempt now) qs.queue
  { qs with queue := queue' }

/-- `canRetry(taskId)`: attempts below the configured maxRetries. -/
def canRetry (taskId : String) (qs : QueueState) : Bool :=
  match qs.queue.find? (fun qt => decide (qt.task.id = taskId)) with
  | none => false
  | some qt => decide (qt.attempts < qs.maxRetries)

/-- `has(taskId)`. -/
def hasTask (taskId : String) (qs : QueueState) : Bool :=
  qs.queue.any (fun qt => decide (qt.task.id = taskId))

/-- `startExecution(taskId, agentId)`: create a running execution keyed by
`exec_<taskId>_<now>`, then dequeue the task. -/
def startExecution (taskId agentId : String) (now : Millis) (qs : QueueState) :
    TaskExecution × QueueState :=
  let executionId := "exec_" ++ taskId ++ "_" ++ jsNumToString now
  let execution : TaskExecution :=
    { id := executionId, taskId := taskId, agentId := agentId, status := .running
      progress := 0, logs := [], result := none, error := none
      startedAt := now, completedAt := none }
  let qs1 := { qs with executions := mapSet executionId ⟨execution, [], now⟩ qs.executions }
  (execution, (dequeue taskId qs1).2)

/-- `addLog(executionId, level, message, data?)`: append to the state's log
list and mirror it onto the execution record. -/
def addLog (executionId : String) (level : LogLevel) (message : String)
    (data : Option String) (now : Millis) (qs : QueueState) : QueueState :=
  let executions' :=
    updateFirst (fun kv => decide (kv.1 = executionId))
      (fun kv =>
        let log : ExecutionLog :=
          { timestamp := now, level := level, message := message, data := data }
        let logs' := kv.2.logs ++ [log]
        (kv.1, { kv.2 with logs := logs',
                           execution := { kv.2.execution with logs := logs' } }))
      qs.executions
  { qs with executions := executions' }

/-- `updateProgress(executionId, progress, message?)`: clamp to [0, 100], then
optionally log an info message. -/
def updateProgress (executionId : String) (progress : ℚ) (message : Option String)
    (now : Millis) (qs : QueueState) : QueueState :=
  if qs.executions.any (fun kv => decide (kv.1 = executionId)) then
    let executions' :=
      updateFirst (fun kv => decide (kv.1 = executionId))
        (fun kv =>
          (kv.1, { kv.2 with execution :=
            { kv.2.execution with progress := min 100 (max 0 progress) } }))
        qs.executions
    let qs1 := { qs with executions := executions' }
    match message with
    | some m => addLog executionId .info m none now qs1
    | none => qs1
  else qs

/-- `completeExecution(executionId, result?)`: status completed, progress
forced to 100, completion timestamp set, info log appended. -/
def completeExecution (executionId : String) (result : Option String)
    (now : Millis) (qs : QueueState) : QueueState :=
  if qs.executions.any (fun kv => decide (kv.1 = executionId)) then
    let executions' :=
      updateFirst (fun kv => decide (kv.1 = executionId))
        (fun kv =>
          (kv.1, { kv.2 with execution :=
            { kv.2.execution with status := .completed, progress := 100,
                                  result := result, completedAt := some now } }))
        qs.executions
    let qs1 := { qs with executions := executions' }
    addLog executionId .info "Task completed successfully" none now qs1
  else qs

/-- `failExecution(executionId, error)`: status failed, error recorded,
completion timestamp set, error log appended. -/
def failExecution (executionId : String) (error : String) (now : Millis)
    (qs : QueueState) : QueueState :=
  if qs.executions.any (fun kv => decide (kv.1 = executionId)) then
    let executions' :=
      updateFirst (fun kv => decide (kv.1 = executionId))
        (fun kv =>
          (kv.1, { kv.2 with execution :=
            { kv.2.execution with status := .failed, error := some error,
                                  completedAt := some now } }))
        qs.executions
    let qs1 := { qs with executions := executions' }
    addLog executionId .error ("Task failed: " ++ error) none now qs1
  else qs

/-- `blockExecution(executionId, reason)`: status blocked, reason recorded as
the error, warn log appended; no completion timestamp. -/
def blockExecution (executionId : String) (reason : String) (now : Millis)
    (qs : QueueState) : QueueState :=
  if qs.executions.any (fun kv => decide (kv.1 = executionId)) then
    let executions' :=
      updateFirst (fun kv => decide (kv.1 = executionId))
        (fun kv =>
          (kv.1, { kv.2 with execution :=
            { kv.2.execution with status := .blocked, error := some reason } }))
        qs.executions
    let qs1 := { qs with executions := executions' }
    addLog executionId .warn ("Task blocked: " ++ reason) none now qs1
  else qs

/-- `getExecution(executionId)`. -/
def getExecution (executionId : String) (qs : QueueState) : Option TaskExecution :=
  (qs.executions.find? (fun kv => decide (kv.1 = executionId))).map
    (fun kv => kv.2.execution)

/-- `getExecutionByTaskId(taskId)`: the first match in ledger iteration order
(the doc comment in the source says "most recent", but the loop returns the
oldest surviving entry). -/
def getExecutionByTaskId (taskId : String) (qs : QueueState) : Option TaskExecution :=
  (qs.executions.find? (fun kv => decide (kv.2.execution.taskId = taskId))).map
    (fun kv => kv.2.execution)

/-- `getActiveExecutions()`: the running executions, in ledger order. -/
def getActiveExecutions (qs : QueueState) : List TaskExecution :=
  (qs.executions.filter (fun kv => decide (kv.2.execution.status = .running))).map
    (fun kv => kv.2.execution)

/-- Terminal in the sense of `cleanup`'s filter: completed or failed
(blocked executions await human action and are never collected). -/
def isTerminal (s : ExecStatus) : Bool :=
  decide (s = .completed) || decide (s = .failed)

/-- The completion time used by `cleanup`'s comparator.  The source reads
`completedAt!`; well-formed ledgers set it on every terminal execution, and
the default is never reached under that invariant. -/
def completedTime (kv : String × ExecutionState) : ℚ :=
  kv.2.execution.completedAt.getD 0

/-- `cleanup`'s comparator `(a, b) => time(b) - time(a)` as a "may come first"
relation: most recently completed first. -/
def cleanupLe (a b : String × ExecutionState) : Prop :=
  completedTime b ≤ completedTime a

instance : DecidableRel cleanupLe := fun a b => by unfold cleanupLe; infer_instance

instance : IsTotal (String × ExecutionState) cleanupLe where
  total a b := by unfold cleanupLe; exact le_total _ _

instance : IsTrans (String × ExecutionState) cleanupLe where
  trans a b c hab hbc := by unfold cleanupLe at *; exact le_trans hbc hab

/-- The terminal executions sorted most-recently-completed first (stable). -/
def sortedTerminals (qs : QueueState) : List (String × ExecutionState) :=
  List.insertionSort cleanupLe
    (qs.executions.filter (fun kv => isTerminal kv.2.execution.status))

/-- `Map.delete` on the execution ledger. -/
def deleteExecution (k : String) (qs : QueueState) : QueueState :=
  { qs with executions := qs.executions.filter (fun kv => !(decide (kv.1 = k))) }

/-- `cleanup(keepLast)`: delete every terminal execution beyond the
`keepLast` most recently completed; return the number of deletions. -/
def cleanup (keepLast : ℕ) (qs : QueueState) : ℕ × QueueState :=
  ((sortedTerminals qs).drop keepLast).foldl
    (fun acc kv => (acc.1 + 1, deleteExecution kv.1 acc.2)) (0, qs)

/-- `syncFromTasks(tasks)`: enqueue each backlog task that is neither queued
nor currently executing (the executing-id set is computed once up front). -/
def syncFromTasks (tasks : List Task) (now : Millis) (qs : QueueState) : QueueState :=
  let executingTaskIds := (getActiveExecutions qs).map (·.taskId)
  tasks.foldl
    (fun acc task =>
      if task.status = .backlog ∧ hasTask task.id acc = false ∧
          ¬(task.id ∈ executingTaskIds) then
        enqueue task none now acc
      else acc)
    qs

/-- The attempts counter recorded for a task id, if queued. -/
def attemptsOf (taskId : String) (qs : QueueState) : Option ℕ :=
  (qs.queue.find? (fun qt => decide (qt.task.id = taskId))).map (·.attempts)

end TaskQueue

/-! ### PersonaManager (`persona.ts`) -/

/-- Per-agent behavioural rules (`AgentRules` in `types.ts`). -/
structure AgentRules where
  allowedTaskTypes : Option (List String)
  forbiddenActions : Option (List String)
  mustAskBefore : Option (List String)
  autoComplete : Option Bool
  maxTasksPerDay : Option ℚ
deriving DecidableEq

/-- Per-agent resource limiters (`AgentLimiters` in `types.ts`). -/
structure AgentLimiters where
  maxTokensPerTask : Option ℚ
  maxApiCallsPerTask : Option ℚ
  maxDurationMinutes : Option ℚ
  cooldownMinutes : Option ℚ
  maxRetries : Option ℚ
deriving DecidableEq

/-- A block trigger (`BlockTrigger` in `types.ts`). -/
structure BlockTrigger where
  condition : String
  message : String
  notifyChannel : Option String
  requiresApproval : Option Bool
deriving DecidableEq

/-- An agent profile row (`Agente` in `types.ts`). -/
structure Agente where
  id : String
  squad_id : String
  nome : String
  tipo : Option String
  soul : Option String
  regras : Option AgentRules
  limitadores : Option AgentLimiters
  gatilhos_bloqueio : Option (List BlockTrigger)
  ativo : Bool
  created_at : String
  updated_at : String
deriving DecidableEq

/-- Optional task context passed to `buildSystemPrompt`. -/
structure PromptContext where
  taskTitle : Option String
  taskDescription : Option String
deriving DecidableEq

namespace PersonaManager

/-- The persona-narrative lines of `buildSystemPrompt` (pushed first). -/
def soulSection (agente : Agente) : List String :=
  if strTruthy agente.soul then [agente.soul.getD ""] else []

/-- The rules-section lines of `buildSystemPrompt` (pushed second). -/
def rulesSection (agente : Agente) : List String :=
  match agente.regras with
  | none => []
  | some regras =>
      ["\n## Rules and Guidelines"]
      ++ (if listTruthy regras.allowedTaskTypes then
            ["- You are specialized in: " ++
              strIntercalate ", " (regras.allowedTaskTypes.getD [])]
          else [])
      ++ (if listTruthy regras.forbiddenActions then
            ["- You must NEVER: " ++
              strIntercalate ", " (regras.forbiddenActions.getD [])]
          else [])
      ++ (if listTruthy regras.mustAskBefore then
            ["- You must ASK FOR APPROVAL before: " ++
              strIntercalate ", " (regras.mustAskBefore.getD [])]
          else [])
      ++ (if boolTruthy regras.autoComplete then
            ["- You should complete tasks autonomously when possible"]
          else
            ["- You should ask for confirmation before completing tasks"])

/-- The limiters-section lines of `buildSystemPrompt` (pushed third). -/
def limitersSection (agente : Agente) : List String :=
  match agente.limitadores with
  | none => []
  | some lim =>
      ["\n## Constraints"]
      ++ (if numTruthy lim.maxDurationMinutes then
            ["- Maximum task duration: " ++
              jsNumToString (lim.maxDurationMinutes.getD 0) ++ " minutes"]
          else [])
      ++ (if numTruthy lim.maxRetries then
            ["- Maximum retry attempts: " ++ jsNumToString (lim.maxRetries.getD 0)]
          else [])

/-- The block-triggers-section lines of `buildSystemPrompt` (pushed fourth). -/
def triggersSection (agente : Agente) : List String :=
  if listTruthy agente.gatilhos_bloqueio then
    "\n## When to Stop and Ask" ::
      (agente.gatilhos_bloqueio.getD []).map (fun t => "- " ++ t.message)
  else []

/-- The task-context lines of `buildSystemPrompt` (pushed last). -/
def contextSection (context : Option PromptContext) : List String :=
  match context with
  | none => []
  | some ctx =>
      if strTruthy ctx.taskTitle || strTruthy ctx.taskDescription then
        ["\n## Current Task"]
        ++ (if strTruthy ctx.taskTitle then
              ["**Title:** " ++ ctx.taskTitle.getD ""] else [])
        ++ (if strTruthy ctx.taskDescription then
              ["**Description:** " ++ ctx.taskDescription.getD ""] else [])
      else []

/-- `buildSystemPrompt(agente, context?)`: push the five sections in source
order into `parts` and join with a newline. -/
def buildSystemPrompt (agente : Agente) (context : Option PromptContext) : String :=
  strIntercalate "\n"
    (soulSection agente ++ rulesSection agente ++ limitersSection agente ++
     triggersSection agente ++ contextSection context)

/-- The signal snapshot handed to `checkBlockTriggers` (booleans are already
truthiness-collapsed: an absent flag behaves as `false`). -/
structure TriggerSignals where
  uncertainty : Option ℚ
  requiresExternalAccess : Bool
  isDestructive : Bool
  estimatedCost : Option ℚ
  costLimit : Option ℚ
deriving DecidableEq

/-- The uncertainty threshold:
`parseFloat(condition.match(/[\d.]+/)?.[0] || '0.8')` — the FIRST digit/dot
run of the (lowercased) condition, not a trailing literal. -/
def uncertaintyThreshold (condLower : String) : Option ℚ :=
  jsParseFloat ((firstDigitDotRun condLower).getD "0.8")

/-- Whether the uncertainty comparison `context.uncertainty > threshold`
holds (false when the signal is absent or the threshold is `NaN`). -/
def uncertaintySignalFires (ctx : TriggerSignals) (condLower : String) : Bool :=
  match ctx.uncertainty with
  | none => false
  | some u =>
      match uncertaintyThreshold condLower with
      | none => false
      | some t => decide (t < u)

/-- Whether `estimatedCost > costLimit` holds (both signals required). -/
def costSignalFires (ctx : TriggerSignals) : Bool :=
  match ctx.estimatedCost, ctx.costLimit with
  | some ec, some cl => decide (cl < ec)
  | _, _ => false

/-- The `for (const trigger of ...)` loop of `checkBlockTriggers`: inside one
trigger, the four keyword checks run in sequence and each returns the trigger
when it fires. -/
def checkTriggersGo (ctx : TriggerSignals) : List BlockTrigger → Option BlockTrigger
  | [] => none
  | trigger :: rest =>
      let condition := strToLower trigger.condition
      if hasSubstr "uncertainty" condition && uncertaintySignalFires ctx condition then
        some trigger
      else if hasSubstr "external_access" condition && ctx.requiresExternalAccess then
        some trigger
      else if hasSubstr "destructive" condition && ctx.isDestructive then
        some trigger
      else if hasSubstr "cost" condition && costSignalFires ctx then
        some trigger
      else checkTriggersGo ctx rest

/-- `checkBlockTriggers(agente, context)`: null on an absent or empty trigger
list, else the first trigger whose keyword check fires. -/
def checkBlockTriggers (agente : Agente) (ctx : TriggerSignals) : Option BlockTrigger :=
  if listTruthy agente.gatilhos_bloqueio then
    checkTriggersGo ctx (agente.gatilhos_bloqueio.getD [])
  else none

/-- Flat one-trigger firing predicate, written from the (amended) claim: the
disjunction of the four keyword checks against the supplied signals. -/
def triggerFiresB (ctx : TriggerSignals) (trigger : BlockTrigger) : Bool :=
  let condition := strToLower trigger.condition
  (hasSubstr "uncertainty" condition && uncertaintySignalFires ctx condition) ||
  (hasSubstr "external_access" condition && ctx.requiresExternalAccess) ||
  (hasSubstr "destructive" condition && ctx.isDestructive) ||
  (hasSubstr "cost" condition && costSignalFires ctx)

end PersonaManager

/-! ### AgentOrchestrator (`orchestrator.ts`) -/

/-- Runtime agent status (`AgentStatus` in `types.ts`). -/
inductive AgentStatus
  | idle
  | working
  | blocked
  | offline
deriving DecidableEq

/-- Running per-agent metrics (`AgentMetrics` in `types.ts`). -/
structure AgentMetrics where
  tasksCompleted : ℕ
  tasksFailed : ℕ
  tasksBlocked : ℕ
  averageTaskDuration : ℚ
  tokensUsed : ℚ
deriving DecidableEq

/-- A live pool member (`AgentInstance` in `types.ts`; `lastActivity` as a
millisecond instant). -/
structure AgentInstance where
  id : String
  agente : Agente
  status : AgentStatus
  currentTask : Option Task
  lastActivity : Option Millis
  metrics : AgentMetrics
deriving DecidableEq

namespace Orchestrator

/-- The idle-and-active filter applied by `selectAgent` and
`getAvailableAgents`. -/
def isCandidate (a : AgentInstance) : Bool :=
  decide (a.status = .idle) && a.agente.ativo

/-- The score computed inside `selectAgent`, exactly as the source
accumulates it (conditional terms included). -/
def codeScore (a : AgentInstance) : ℚ :=
  let s1 : ℚ := 0 - (a.metrics.tasksCompleted : ℚ) * (1 / 10)
  let totalTasks := a.metrics.tasksCompleted + a.metrics.tasksFailed
  let s2 :=
    if 0 < totalTasks then
      s1 + ((a.metrics.tasksCompleted : ℚ) / (totalTasks : ℚ)) * 10
    else s1
  if 0 < a.metrics.averageTaskDuration then
    s2 - a.metrics.averageTaskDuration / 60000
  else s2

/-- `selectAgent`'s comparator `(a, b) => b.score - a.score` as a "may come
first" relation on scored pairs. -/
def scoreLe (x y : AgentInstance × ℚ) : Prop :=
  y.2 ≤ x.2

instance : DecidableRel scoreLe := fun x y => by unfold scoreLe; infer_instance

instance : IsTotal (AgentInstance × ℚ) scoreLe where
  total a b := by unfold scoreLe; exact le_total _ _

instance : IsTrans (AgentInstance × ℚ) scoreLe where
  trans a b c hab hbc := by unfold scoreLe at *; exact le_trans hbc hab

/-- `selectAgent(task)` (the task argument is unused by the source body):
filter idle+active, score, stable-sort descending, take the head.  The pool
list carries the live map's insertion/iteration order. -/
def selectAgent (pool : List AgentInstance) : Option AgentInstance :=
  let availableAgents := pool.filter isCandidate
  if availableAgents.length = 0 then none
  else
    let scored := availableAgents.map (fun a => (a, codeScore a))
    let sorted := List.insertionSort scoreLe scored
    sorted.head?.map (·.1)

/-- The success rate as the claim words it: completed/(completed+failed),
and 0 for an agent with no history. -/
def claimSuccessRate (a : AgentInstance) : ℚ :=
  if a.metrics.tasksCompleted + a.metrics.tasksFailed = 0 then 0
  else (a.metrics.tasksCompleted : ℚ) /
    ((a.metrics.tasksCompleted + a.metrics.tasksFailed : ℕ) : ℚ)

/-- The scoring formula exactly as the claim states it:
`−0.1×tasksCompleted + 10×successRate − averageTaskDurationMs/60000`. -/
def claimScore (a : AgentInstance) : ℚ :=
  -(1 / 10) * (a.metrics.tasksCompleted : ℚ) + 10 * claimSuccessRate a -
    a.metrics.averageTaskDuration / 60000

/-- Progress snapshot (`TaskProgress` in `types.ts`). -/
structure TaskProgress where
  taskId : String
  agentId : String
  status : ExecStatus
  progress : ℚ
  currentStep : Option String
  message : Option String
  timestamp : Millis
deriving DecidableEq

/-- `getTaskProgress(taskId)`: a snapshot of the execution found by
`getExecutionByTaskId`, with the last log message. -/
def getTaskProgress (taskId : String) (now : Millis) (qs : QueueState) :
    Option TaskProgress :=
  match TaskQueue.getExecutionByTaskId taskId qs with
  | none => none
  | some e =>
      some { taskId := e.taskId, agentId := e.agentId, status := e.status
             progress := e.progress, currentStep := none
             message := e.logs.getLast?.map (·.message), timestamp := now }

/-- `ExecuteTaskRequest` (the opaque context payload as key/value pairs). -/
structure ExecuteTaskRequest where
  taskId : String
  agentId : Option String
  priority : Option ℚ
  context : Option (List (String × String))
deriving DecidableEq

/-- The immediate handle returned by `executeTask`. -/
structure ExecuteTaskResponse where
  executionId : String
  taskId : String
  agentId : String
  status : ExecStatus
deriving DecidableEq

/-- A store mutation issued through the Supabase collaborator. -/
inductive StoreWrite
  | assignTask (taskId agentId : String)
  | updateTaskStatus (taskId : String) (status : TaskStatus) (motivo : Option String)
  | createMensagem (taskId : String) (agenteId : Option String)
      (conteudo : String) (tipo : String)
deriving DecidableEq

/-- An externally visible effect of the synchronous part of `executeTask`:
store writes, notification-service calls, and the fire-and-forget launch of
`runTaskExecution`. -/
inductive OrchestratorEffect
  | storeWrite (w : StoreWrite)
  | notifySquad (event : String)
  | launchRun (executionId : String)
deriving DecidableEq

/-- The orchestrator's own mutable state: the live agent pool (a JS Map in
insertion order) and the task queue. -/
structure OrchestratorState where
  agents : List (String × AgentInstance)
  queue : QueueState
deriving DecidableEq

/-- Result of the synchronous part of `executeTask`: either a thrown error or
the immediate handle, in both cases with the state it left behind and the
effects it issued, in order. -/
inductive ExecTaskOutcome
  | threw (message : String) (st : OrchestratorState) (effects : List OrchestratorEffect)
  | ok (resp : ExecuteTaskResponse) (st : OrchestratorState)
      (effects : List OrchestratorEffect)
deriving DecidableEq

/-- The synchronous part of `executeTask(request)` up to returning the
handle: task lookup (store read against the `tasks` snapshot), agent
resolution with its two throw sites, the optional priority override,
`startExecution`, the agent-status flip, the `assignTask` store write, the
`task_assigned` notification, and the async launch of `runTaskExecution`. -/
def executeTask (tasks : List Task) (now : Millis) (st : OrchestratorState)
    (req : ExecuteTaskRequest) : ExecTaskOutcome :=
  match tasks.find? (fun t => decide (t.id = req.taskId)) with
  | none => .threw ("Task " ++ req.taskId ++ " not found") st []
  | some task =>
      let selected? : Option AgentInstance :=
        match req.agentId with
        | some aid => (st.agents.find? (fun kv => decide (kv.1 = aid))).map (·.2)
        | none => selectAgent (st.agents.map (·.2))
      match req.agentId, selected? with
      | some aid, none =>
          .threw ("Agent " ++ aid ++ " not found or not registered") st []
      | none, none => .threw "No available agent to handle this task" st []
      | _, some selectedAgent =>
          let task :=
            match req.priority with
            | some p => { task with priority := some p }
            | none => task
          let (execution, queue') :=
            TaskQueue.startExecution task.id selectedAgent.id now st.queue
          let agents' :=
            updateFirst (fun kv => decide (kv.1 = selectedAgent.id))
              (fun kv =>
                (kv.1, { kv.2 with status := .working, currentTask := some task,
                                   lastActivity := some now }))
              st.agents
          .ok { executionId := execution.id, taskId := task.id
                agentId := selectedAgent.id, status := execution.status }
             { agents := agents', queue := queue' }
             [.storeWrite (.assignTask task.id selectedAgent.id),
              .notifySquad "task_assigned",
              .launchRun execution.id]

end Orchestrator

/-! ### WorkflowEngine (`workflow-engine.ts`)

Runtime JSON-ish values flowing through a workflow context are modelled by
`JsValue`; `none` inside `vNum` models `NaN`. -/

/-- A JS runtime value as the condition evaluator can observe it. -/
inductive JsValue
  | vUndef
  | vNull
  | vBool (b : Bool)
  | vNum (q : Option ℚ)
  | vStr (s : String)
  | vArr (xs : List JsValue)
  | vObj (fields : List (String × JsValue))

/-- JS `Number(string)` (decimal literals with optional sign, fraction and
exponent; the unused hex/`Infinity` forms coerce to `NaN` here): exponent
suffix handling. -/
def applyExponent (base : ℚ) (cs : List Char) : Option ℚ :=
  match cs with
  | [] => some base
  | c :: rest =>
      if c = Char.ofNat 101 ∨ c = Char.ofNat 69 then
        let signed := match rest with
          | d :: r2 =>
              if d = Char.ofNat 45 then (true, r2)
              else if d = Char.ofNat 43 then (false, r2)
              else (false, rest)
          | [] => (false, rest)
        let eds := signed.2.takeWhile Char.isDigit
        let rest2 := signed.2.dropWhile Char.isDigit
        if eds = [] ∨ rest2 ≠ [] then none
        else some (if signed.1 then base / (10 : ℚ) ^ digitsToNat eds
                   else base * (10 : ℚ) ^ digitsToNat eds)
      else none

/-- JS `Number(string)`: the unsigned decimal body (entire string must be
consumed, unlike `parseFloat`). -/
def parseUnsignedDecimal (cs : List Char) : Option ℚ :=
  let intPart := cs.takeWhile Char.isDigit
  let rest := cs.dropWhile Char.isDigit
  match rest with
  | [] => if intPart = [] then none else some (digitsToNat intPart : ℚ)
  | c :: rest1 =>
      if c = Char.ofNat 46 then
        let fracPart := rest1.takeWhile Char.isDigit
        let rest2 := rest1.dropWhile Char.isDigit
        if intPart = [] ∧ fracPart = [] then none
        else applyExponent ((digitsToNat intPart : ℚ) +
          (digitsToNat fracPart : ℚ) / (10 : ℚ) ^ fracPart.length) rest2
      else if intPart = [] then none
      else applyExponent (digitsToNat intPart : ℚ) rest

/-- JS `Number(string)`: trim, empty is 0, optional sign, full-string
decimal parse; `none` models `NaN`. -/
def jsNumberOfString (s : String) : Option ℚ :=
  let t := strTrim s
  if t = "" then some 0
  else
    let signed := match t.data with
      | c :: rest =>
          if c = Char.ofNat 45 then ((-1 : ℚ), rest)
          else if c = Char.ofNat 43 then ((1 : ℚ), rest)
          else ((1 : ℚ), t.data)
      | [] => ((1 : ℚ), t.data)
    (parseUnsignedDecimal signed.2).map (fun q => signed.1 * q)

mutual

/-- JS `String(value)` coercion (objects print as `[object Object]`). -/
def jsToString : JsValue → String
  | .vUndef => "undefined"
  | .vNull => "null"
  | .vBool b => if b then "true" else "false"
  | .vNum none => "NaN"
  | .vNum (some q) => jsNumToString q
  | .vStr s => s
  | .vArr xs => strIntercalate "," (jsToStringElems xs)
  | .vObj _ => "[object Object]"

/-- Array elements joined by `Array.prototype.toString`: null and undefined
render as empty. -/
def jsToStringElems : List JsValue → List String
  | [] => []
  | .vUndef :: rest => "" :: jsToStringElems rest
  | .vNull :: rest => "" :: jsToStringElems rest
  | v :: rest => jsToString v :: jsToStringElems rest

end

/-- JS `Number(value)` coercion (arrays and objects go through their string
form). -/
def jsToNumber : JsValue → Option ℚ
  | .vUndef => none
  | .vNull => some 0
  | .vBool b => some (if b then 1 else 0)
  | .vNum q => q
  | .vStr s => jsNumberOfString s
  | .vArr xs => jsNumberOfString (jsToString (.vArr xs))
  | .vObj fields => jsNumberOfString (jsToString (.vObj fields))

/-- JS strict equality `===`.  Arrays/objects compare by reference in JS; the
right operand of every comparison in `evaluateCondition` is a `parseValue`
result (always primitive), so returning false there is exact. -/
def jsStrictEq : JsValue → JsValue → Bool
  | .vUndef, .vUndef => true
  | .vNull, .vNull => true
  | .vBool a, .vBool b => decide (a = b)
  | .vNum (some a), .vNum (some b) => decide (a = b)
  | .vStr a, .vStr b => decide (a = b)
  | _, _ => false

/-- JS truthiness of a runtime value. -/
def jsTruthy : JsValue → Bool
  | .vUndef => false
  | .vNull => false
  | .vBool b => b
  | .vNum none => false
  | .vNum (some q) => !(decide (q = 0))
  | .vStr s => !(decide (s = ""))
  | .vArr _ => true
  | .vObj _ => true

/-- Escape for `JSON.stringify` string output (quotes and backslashes; the
control-character escapes are never exercised here). -/
def jsonEscape (s : String) : String :=
  s.data.foldl
    (fun acc c =>
      acc ++
        (if c = Char.ofNat 34 then "\\\""
         else if c = Char.ofNat 92 then "\\\\"
         else String.mk [c]))
    ""

mutual

/-- JS `JSON.stringify(value)`; standalone `undefined` yields the value
`undefined`, which the `replace` call site coerces to the string
"undefined". -/
def jsonStringify : JsValue → String
  | .vUndef => "undefined"
  | .vNull => "null"
  | .vBool b => if b then "true" else "false"
  | .vNum none => "null"
  | .vNum (some q) => jsNumToString q
  | .vStr s => "\"" ++ jsonEscape s ++ "\""
  | .vArr xs => "[" ++ strIntercalate "," (jsonStringifyElems xs) ++ "]"
  | .vObj fields =>
      "\x7b" ++ strIntercalate "," (jsonStringifyFields fields) ++ "\x7d"

/-- JSON array elements (`undefined` becomes `null`). -/
def jsonStringifyElems : List JsValue → List String
  | [] => []
  | .vUndef :: rest => "null" :: jsonStringifyElems rest
  | v :: rest => jsonStringify v :: jsonStringifyElems rest

/-- JSON object fields (`undefined` values are skipped). -/
def jsonStringifyFields : List (String × JsValue) → List String
  | [] => []
  | (_, .vUndef) :: rest => jsonStringifyFields rest
  | (k, v) :: rest =>
      ("\"" ++ jsonEscape k ++ "\":" ++ jsonStringify v) :: jsonStringifyFields rest

end

namespace WorkflowEngine

/-- The step-execution context: the `input` and `stepResults` records. -/
structure WfContext where
  input : List (String × JsValue)
  stepResults : List (String × JsValue)

/-- `getNestedValue`'s walk: per path segment, null/undefined and
non-objects resolve to undefined, otherwise index into the object/array. -/
def getNestedGo : JsValue → List String → JsValue
  | current, [] => current
  | current, part :: rest =>
      match current with
      | .vUndef => .vUndef
      | .vNull => .vUndef
      | .vObj fields =>
          getNestedGo
            (((fields.find? (fun kv => decide (kv.1 = part))).map (·.2)).getD .vUndef)
            rest
      | .vArr xs =>
          getNestedGo
            (if part = "length" then .vNum (some (xs.length : ℚ))
             else match strCanonicalIndex part with
                  | some i => (xs.get? i).getD .vUndef
                  | none => .vUndef)
            rest
      | _ => JsValue.vUndef

/-- `getNestedValue(obj, path)`: split on dots and walk. -/
def getNested (obj : List (String × JsValue)) (path : String) : JsValue :=
  getNestedGo (.vObj obj) (strSplitOn path ".")

/-- `resolveVariable(path, context)`: `input.` prefix, `results.` prefix, or
bare name tried against input then results. -/
def resolveVariable (path : String) (ctx : WfContext) : JsValue :=
  let trimmed := strTrim path
  if strStartsWith trimmed "input." then
    getNested ctx.input (replaceFirst trimmed "input." "")
  else if strStartsWith trimmed "results." then
    getNested ctx.stepResults (replaceFirst trimmed "results." "")
  else
    match getNested ctx.input trimmed with
    | .vUndef => getNested ctx.stepResults trimmed
    | value => value

/-- `parseValue(value)`: boolean, null, number, quoted string, raw string, in
that order. -/
def parseValue (value : String) : JsValue :=
  let trimmed := strTrim value
  if trimmed = "true" then .vBool true
  else if trimmed = "false" then .vBool false
  else if trimmed = "null" then .vNull
  else
    match jsNumberOfString trimmed with
    | some q => .vNum (some q)
    | none =>
        let dq := String.mk [Char.ofNat 34]
        let sq := String.mk [Char.ofNat 39]
        if (strStartsWith trimmed dq && strEndsWith trimmed dq) ||
            (strStartsWith trimmed sq && strEndsWith trimmed sq) then
          .vStr (strDropRight (strDrop trimmed 1) 1)
        else .vStr trimmed

/-- The fixed operator checklist scanned by `evaluateCondition`. -/
def comparisonOperators : List String := ["===", "!==", "==", "!=", ">=", "<=", ">", "<"]

/-- The switch body for one comparison operator. -/
def applyComparison (op : String) (leftValue rightValue : JsValue) : Bool :=
  if op = "===" ∨ op = "==" then jsStrictEq leftValue rightValue
  else if op = "!==" ∨ op = "!=" then !(jsStrictEq leftValue rightValue)
  else
    match jsToNumber leftValue, jsToNumber rightValue with
    | some a, some b =>
        if op = ">" then decide (b < a)
        else if op = "<" then decide (a < b)
        else if op = ">=" then decide (b ≤ a)
        else if op = "<=" then decide (a ≤ b)
        else false
    | _, _ => false

/-- Split the expression on a given operator, trim, resolve the left side and
parse the right side, then compare. -/
def evalComparisonAt (op : String) (expression : String) (ctx : WfContext) : Bool :=
  let parts := (strSplitOn expression op).map strTrim
  let left := (parts.get? 0).getD ""
  let right := (parts.get? 1).getD ""
  applyComparison op (resolveVariable left ctx) (parseValue right)

/-- The `for (const op of operators)` loop: evaluate at the first operator
that occurs as a substring. -/
def condOpLoop (expression : String) (ctx : WfContext) :
    List String → Option Bool
  | [] => none
  | op :: rest =>
      if hasSubstr op expression then some (evalComparisonAt op expression ctx)
      else condOpLoop expression ctx rest

/-- The first checklist operator occurring in the expression. -/
def firstOperator (expression : String) : Option String :=
  comparisonOperators.find? (fun op => hasSubstr op expression)

/-- `valuePart.replace(/['"]/g, '')`. -/
def removeQuoteChars (s : String) : String :=
  (s.data.filter (fun c => !(c = Char.ofNat 39 ∨ c = Char.ofNat 34))).asString

/-- `Array.prototype.includes` against a string needle (SameValueZero). -/
def includesStr (xs : List JsValue) (s : String) : Bool :=
  xs.any (fun v => match v with | .vStr t => decide (t = s) | _ => false)

/-- `evaluateCondition(expression, context)`: `.exists` test, `contains`
test, operator scan, else bare truthiness. -/
def evaluateCondition (expression : String) (ctx : WfContext) : Bool :=
  if strEndsWith expression ".exists" then
    let varName := replaceFirst expression ".exists" ""
    match resolveVariable varName ctx with
    | .vUndef => false
    | .vNull => false
    | _ => true
  else if hasSubstr " contains " expression then
    let parts := (strSplitOn expression " contains ").map strTrim
    let varPart := (parts.get? 0).getD ""
    let valuePart := (parts.get? 1).getD ""
    let searchValue := removeQuoteChars valuePart
    match resolveVariable varPart ctx with
    | .vArr xs => includesStr xs searchValue
    | .vStr s => hasSubstr searchValue s
    | _ => false
  else
    match condOpLoop expression ctx comparisonOperators with
    | some b => b
    | none => jsTruthy (resolveVariable expression ctx)

/-- `ConditionConfig` from `types.ts`. -/
structure ConditionConfig where
  check : String
  trueStep : String
  falseStep : String
deriving DecidableEq

/-- `NotifyConfig` from `types.ts` (the optional embed is not modelled; no
claim touches it). -/
structure NotifyConfig where
  channel : String
  target : Option String
  message : String
deriving DecidableEq

/-- A step's result record (`StepResult` in `workflow-engine.ts`). -/
structure StepResult where
  success : Bool
  nextStepId : Option String
  error : Option String
  output : Option JsValue

/-- `executeCondition(config, context)`: always an engine-level success,
routing to trueStep or falseStep.  (`evaluateCondition` is total, so the
surrounding try/catch is dead code in the model.) -/
def executeCondition (config : ConditionConfig) (ctx : WfContext) : StepResult :=
  let result := evaluateCondition config.check ctx
  { success := true
    nextStepId := some (if result then config.trueStep else config.falseStep)
    error := none
    output := some (.vObj [("condition", .vStr config.check),
                           ("result", .vBool result)]) }

/-- Step kinds (`StepType` in `types.ts`). -/
inductive StepType
  | agent_task
  | condition
  | parallel
  | wait
  | notify
deriving DecidableEq

/-- Step configuration union (only the payloads the claims exercise are
carried). -/
inductive StepConfig
  | agentTaskC
  | conditionC (cfg : ConditionConfig)
  | parallelC
  | waitC
  | notifyC (cfg : NotifyConfig)
deriving DecidableEq

/-- A workflow step (`WorkflowStep` in `types.ts`). -/
structure WorkflowStep where
  id : String
  type : StepType
  name : String
  config : StepConfig
  onSuccess : Option String
  onFailure : Option String
  onBlock : Option String
deriving DecidableEq

/-- `workflow.steps.findIndex((s) => s.id === stepId)`, with the `< 0` check
folded into the Option. -/
def findStepIndex (steps : List WorkflowStep) (stepId : String) : Option ℕ :=
  steps.findIdx? (fun s => decide (s.id = stepId))

/-- `result.error || 'Step failed'` (empty strings are falsy). -/
def errorOrDefault (err : Option String) : String :=
  match err with
  | some s => if s = "" then "Step failed" else s
  | none => "Step failed"

/-- Where the run loop goes after a step. -/
inductive StepControl
  | continueAt (i : ℕ)
  | failWorkflow (error : String)
deriving DecidableEq

/-- The step-to-step control transfer of `runWorkflow` (lines after
`executeStep`): failure routes via a resolvable `onFailure` or fails the
workflow; success routes via a resolvable produced `nextStepId`, else a
resolvable `onSuccess`, else advances sequentially. -/
def nextStepControl (steps : List WorkflowStep) (step : WorkflowStep)
    (result : StepResult) (currentStepIndex : ℕ) : StepControl :=
  if result.success = false then
    match
      (if strTruthy step.onFailure then findStepIndex steps (step.onFailure.getD "")
       else none) with
    | some i => .continueAt i
    | none => .failWorkflow (errorOrDefault result.error)
  else
    match
      (if strTruthy result.nextStepId then
        findStepIndex steps (result.nextStepId.getD "")
       else none) with
    | some i => .continueAt i
    | none =>
        match
          (if strTruthy step.onSuccess then
            findStepIndex steps (step.onSuccess.getD "")
           else none) with
        | some i => .continueAt i
        | none => .continueAt (currentStepIndex + 1)

/-- The message interpolation of `executeNotify`: for each input entry
replace the token `{x}` written with doubled braces, i.e. the literal
`\x7b\x7bx\x7d\x7d`, by `String(value)`; for each step-result entry replace
`\x7b\x7bresults.x\x7d\x7d` by `JSON.stringify(value)`.  `replace` with a
string pattern touches only the first occurrence. -/
def interpolateNotifyMessage (message : String) (ctx : WfContext) : String :=
  let m1 := ctx.input.foldl
    (fun m kv => replaceFirst m ("\x7b\x7b" ++ kv.1 ++ "\x7d\x7d") (jsToString kv.2))
    message
  ctx.stepResults.foldl
    (fun m kv =>
      replaceFirst m ("\x7b\x7bresults." ++ kv.1 ++ "\x7d\x7d") (jsonStringify kv.2))
    m1

/-- Outcome of the `sendDiscordNotification` collaborator call. -/
inductive NotifySendResult
  | sendOk
  | sendFailed (error : Option String)
deriving DecidableEq

/-- `executeNotify(config, context)`: interpolate, forward to the chat
webhook when the channel is discord and a target is set (the collaborator's
outcome is supplied as `send`), fail the step exactly when that forward
fails. -/
def executeNotify (config : NotifyConfig) (ctx : WfContext)
    (send : String → String → NotifySendResult) : StepResult :=
  let message := interpolateNotifyMessage config.message ctx
  let ok : StepResult :=
    { success := true, nextStepId := none, error := none
      output := some (.vObj [("channel", .vStr config.channel),
                             ("message", .vStr message)]) }
  if config.channel = "discord" ∧ strTruthy config.target then
    match send (config.target.getD "") message with
    | .sendFailed err =>
        { success := false, nextStepId := none, error := err, output := none }
    | .sendOk => ok
  else ok

end WorkflowEngine

/-! ### Claim-side predicates and proof devices -/

/-- Retry eligibility as the claim words it: attempts is 0, or the elapsed
time since the recorded lastAttempt is at least the retry delay. -/
def eligibleClaim (now delay : ℚ) (qt : QueuedTask) : Prop :=
  qt.attempts = 0 ∨ ∃ la, qt.lastAttempt = some la ∧ delay ≤ now - la

/-- The leftmost maximal-score pair of a scored candidate list (what a stable
descending sort puts first). -/
def firstMaxScored : List (AgentInstance × ℚ) → Option (AgentInstance × ℚ)
  | [] => none
  | x :: xs =>
      some (match firstMaxScored xs with
            | none => x
            | some m => if Orchestrator.scoreLe x m then x else m)

/-! ### Concrete instances used by witnesses and counterexamples -/

/-- A minimal backlog task. -/
def sampleTask (i : String) (p : Option ℚ) : Task :=
  { id := i, squad_id := "s", titulo := "T" ++ i, descricao := none
    status := .backlog, motivo_bloqueio := none, assigned_agent_id := none
    priority := p, created_at := "", updated_at := "" }

/-- A minimal agent profile. -/
def sampleAgente (i : String) : Agente :=
  { id := i, squad_id := "s", nome := i, tipo := none, soul := none
    regras := none, limitadores := none, gatilhos_bloqueio := none
    ativo := true, created_at := "", updated_at := "" }

/-- Queue entry: priority 5, enqueued at t=0, fresh. -/
def c1Entry1 : QueuedTask :=
  { task := sampleTask "t1" (some 5), priority := 5, queuedAt := 0
    attempts := 0, lastAttempt := none }

/-- Queue entry: priority 1, enqueued at t=1, fresh. -/
def c1Entry2 : QueuedTask :=
  { task := sampleTask "t2" (some 1), priority := 1, queuedAt := 1
    attempts := 0, lastAttempt := none }

/-- A queue holding the two entries, lower priority first in map order. -/
def c1Queue : QueueState :=
  { QueueState.empty with queue := [c1Entry2, c1Entry1] }

/-- Enqueue t1. -/
def c2Step1 : QueueState :=
  TaskQueue.enqueue (sampleTask "t1" (some 5)) none 0 QueueState.empty

/-- Then mark an attempt on it. -/
def c2Step2 : QueueState := TaskQueue.markAttempt "t1" 5 c2Step1

/-- Then enqueue the same task id again. -/
def c2Step3 : QueueState :=
  TaskQueue.enqueue (sampleTask "t1" (some 5)) none 10 c2Step2

/-- An idle active agent with no history. -/
def c3Agent1 : AgentInstance :=
  { id := "a1", agente := sampleAgente "a1", status := .idle
    currentTask := none, lastActivity := none
    metrics := { tasksCompleted := 0, tasksFailed := 0, tasksBlocked := 0
                 averageTaskDuration := 0, tokensUsed := 0 } }

/-- A working agent (never selectable). -/
def c3Agent2 : AgentInstance :=
  { id := "a2", agente := sampleAgente "a2", status := .working
    currentTask := none, lastActivity := none
    metrics := { tasksCompleted := 3, tasksFailed := 0, tasksBlocked := 0
                 averageTaskDuration := 1000, tokensUsed := 0 } }

/-- An idle active agent. -/
def c4Agent : AgentInstance :=
  { id := "a4", agente := sampleAgente "a4", status := .idle
    currentTask := none, lastActivity := none
    metrics := { tasksCompleted := 0, tasksFailed := 0, tasksBlocked := 0
                 averageTaskDuration := 0, tokensUsed := 0 } }

/-- Orchestrator state with one registered agent and an empty queue. -/
def c4State : Orchestrator.OrchestratorState :=
  { agents := [("a4", c4Agent)], queue := QueueState.empty }

/-- The store snapshot holding the requested task. -/
def c4Tasks : List Task := [sampleTask "t9" none]

/-- A request naming an unregistered explicit agent id. -/
def c4Request : Orchestrator.ExecuteTaskRequest :=
  { taskId := "t9", agentId := some "ghost", priority := none, context := none }

/-- The condition step of testable-property 9. -/
def c5Config : WorkflowEngine.ConditionConfig :=
  { check := "results.test.success == true", trueStep := "approve"
    falseStep := "notify_failure" }

/-- Its context: `results.test.success` is true. -/
def c5Ctx : WorkflowEngine.WfContext :=
  { input := [], stepResults := [("test", .vObj [("success", .vBool true)])] }

/-- A condition trigger whose text holds a digit before the trailing
literal. -/
def c6trigger : BlockTrigger :=
  { condition := "uncertainty2 > 0.5", message := "m", notifyChannel := none
    requiresApproval := some true }

/-- An agent profile carrying only that trigger. -/
def c6agente : Agente :=
  { sampleAgente "a6" with gatilhos_bloqueio := some [c6trigger] }

/-- A signal snapshot with uncertainty 1. -/
def c6ctx : PersonaManager.TriggerSignals :=
  { uncertainty := some 1, requiresExternalAccess := false
    isDestructive := false, estimatedCost := none, costLimit := none }

/-- A profile exercising every section of `buildSystemPrompt`. -/
def c7Agente : Agente :=
  { sampleAgente "a7" with
    soul := some "You are a helpful agent."
    regras := some { allowedTaskTypes := some ["coding", "review"]
                     forbiddenActions := none
                     mustAskBefore := some ["delete files"]
                     autoComplete := some false, maxTasksPerDay := none }
    limitadores := some { maxTokensPerTask := none, maxApiCallsPerTask := none
                          maxDurationMinutes := some 60, cooldownMinutes := none
                          maxRetries := some 3 }
    gatilhos_bloqueio := some [{ condition := "uncertainty > 0.8"
                                 message := "High uncertainty"
                                 notifyChannel := none
                                 requiresApproval := some true }] }

/-- A task context for `buildSystemPrompt`. -/
def c7Context : PromptContext :=
  { taskTitle := some "Demo", taskDescription := none }

/-- A ledger entry whose execution is still running. -/
def c8RunningExec : String × ExecutionState :=
  ("e1",
   { execution := { id := "e1", taskId := "t1", agentId := "a1"
                    status := .running, progress := 10, logs := []
                    result := none, error := none, startedAt := 0
                    completedAt := none }
     logs := [], startTime := 0 })

/-- A ledger holding only that running execution. -/
def c8Ledger : QueueState :=
  { QueueState.empty with executions := [c8RunningExec] }

/-- The completion-notification template of the repository's own
`task-assignment` workflow template. -/
def c9Template : String :=
  "Task \"\x7b\x7binput.taskTitle\x7d\x7d\" completed successfully!"

/-- An execution context whose input carries the referenced `taskTitle`. -/
def c9Ctx : WorkflowEngine.WfContext :=
  { input := [("taskTitle", .vStr "Demo")], stepResults := [] }

/-- The report template of the repository's own `daily-standup` workflow
template (token family `results.step.x`). -/
def c9Template2 : String := "Standup: \x7b\x7bresults.generate.report\x7d\x7d"

/-- A context whose `generate` step produced the referenced report field. -/
def c9Ctx2 : WorkflowEngine.WfContext :=
  { input := [], stepResults := [("generate", .vObj [("report", .vStr "ok")])] }

/-- The older execution for task t5. -/
def c10Old : String × ExecutionState :=
  ("e1",
   { execution := { id := "e1", taskId := "t5", agentId := "a1"
                    status := .failed, progress := 30, logs := []
                    result := none, error := some "boom", startedAt := 0
                    completedAt := some 10 }
     logs := [], startTime := 0 })

/-- The newer execution for the same task t5 (for example a resumed run). -/
def c10New : String × ExecutionState :=
  ("e2",
   { execution := { id := "e2", taskId := "t5", agentId := "a1"
                    status := .running, progress := 50, logs := []
                    result := none, error := none, startedAt := 20
                    completedAt := none }
     logs := [], startTime := 20 })

/-- A ledger holding both executions in creation order. -/
def c10Ledger : QueueState :=
  { QueueState.empty with executions := [c10Old, c10New] }

/-! ## Helper lemmas -/

/-- The first match of `find?` in a `Pairwise r` list relates (under `r`) to
every other match. -/
theorem find?_pairwise_min {α : Type} {r : α → α → Prop} {p : α → Bool}
    {l : List α} (hs : List.Pairwise r l) {x : α} (hf : l.find? p = some x) :
    p x = true ∧ ∀ y ∈ l, p y = true → x = y ∨ r x y := by
  induction l with
  | nil => simp at hf
  | cons a tl ih =>
    obtain ⟨ha, htl⟩ := List.pairwise_cons.1 hs
    by_cases hpa : p a = true
    · rw [List.find?_cons_of_pos _ hpa] at hf
      cases hf
      refine ⟨hpa, fun y hy _ => ?_⟩
      rcases List.mem_cons.1 hy with rfl | hy
      · exact Or.inl rfl
      · exact Or.inr (ha y hy)
    · rw [List.find?_cons_of_neg _ hpa] at hf
      obtain ⟨hpx, hmin⟩ := ih htl hf
      refine ⟨hpx, fun y hy hpy => ?_⟩
      rcases List.mem_cons.1 hy with rfl | hy
      · exact absurd hpy hpa
      · exact hmin y hy hpy

/-- Under the reachable-state invariant (a positive attempts count always
comes with a recorded lastAttempt), the source's eligibility test coincides
with the claim's. -/
theorem retryEligibleB_iff (now delay : ℚ) (qt : QueuedTask)
    (hwf : 0 < qt.attempts → qt.lastAttempt.isSome) :
    TaskQueue.retryEligibleB now delay qt = true ↔ eligibleClaim now delay qt := by
  unfold TaskQueue.retryEligibleB eligibleClaim
  by_cases h0 : qt.attempts = 0
  · simp [h0]
  · cases hla : qt.lastAttempt with
    | none =>
        have := hwf (Nat.pos_of_ne_zero h0)
        rw [hla] at this
        simp at this
    | some la => simp [h0, hla]

/-- `getNext` always returns the first retry-eligible entry of the sorted
view (the head shortcut and the `find` scan agree on this). -/
theorem getNext_eq_find (now : ℚ) (qs : QueueState) :
    TaskQueue.getNext now qs =
      ((List.insertionSort TaskQueue.qLe qs.queue).find?
        (TaskQueue.retryEligibleB now qs.retryDelayMs)).map (·.task) := by
  unfold TaskQueue.getNext
  by_cases hemp : qs.queue.isEmpty
  · have h0 : qs.queue = [] := by simpa using hemp
    simp [hemp, h0]
  · simp only [hemp, Bool.false_eq_true, if_false]
    cases hsort : List.insertionSort TaskQueue.qLe qs.queue with
    | nil => simp
    | cons next rest =>
      by_cases hatt : 0 < next.attempts
      · cases hla : next.lastAttempt with
        | none =>
            have he : TaskQueue.retryEligibleB now qs.retryDelayMs next = true := by
              unfold TaskQueue.retryEligibleB
              rw [if_neg (by omega), hla]
            simp [hatt, hla, List.find?_cons_of_pos _ he]
        | some la =>
            by_cases hlt : now - la < qs.retryDelayMs
            · have he : TaskQueue.retryEligibleB now qs.retryDelayMs next = false := by
                unfold TaskQueue.retryEligibleB
                rw [if_neg (by omega), hla]
                simpa using hlt
              simp [hatt, hla, hlt]
            · have he : TaskQueue.retryEligibleB now qs.retryDelayMs next = true := by
                unfold TaskQueue.retryEligibleB
                rw [if_neg (by omega), hla]
                simpa using le_of_not_lt hlt
              simp [hatt, hla, hlt, List.find?_cons_of_pos _ he]
      · have h0 : next.attempts = 0 := by omega
        have he : TaskQueue.retryEligibleB now qs.retryDelayMs next = true := by
          unfold TaskQueue.retryEligibleB
          rw [if_pos h0]
        simp [hatt, List.find?_cons_of_pos _ he]

/-- The operator loop of `evaluateCondition` evaluates at the first checklist
operator occurring in the expression. -/
theorem condOpLoop_eq_find (e : String) (ctx : WorkflowEngine.WfContext) :
    ∀ ops, WorkflowEngine.condOpLoop e ctx ops =
      (ops.find? (fun op => hasSubstr op e)).map
        (fun op => WorkflowEngine.evalComparisonAt op e ctx) := by
  intro ops
  induction ops with
  | nil => rfl
  | cons op rest ih =>
    by_cases h : hasSubstr op e = true
    · have hfind : List.find? (fun o => hasSubstr o e) (op :: rest) = some op :=
        List.find?_cons_of_pos _ h
      rw [WorkflowEngine.condOpLoop, if_pos h, hfind]
      rfl
    · have hfind : List.find? (fun o => hasSubstr o e) (op :: rest) =
          List.find? (fun o => hasSubstr o e) rest :=
        List.find?_cons_of_neg _ h
      rw [WorkflowEngine.condOpLoop, if_neg h, hfind, ih]

/-! ## Claim theorems -/

/-- C1: on a well-formed queue state, `getNext()` returns the task of an
eligible entry of maximal priority among the eligible entries, breaking
priority ties by earliest enqueue time (equivalently: the first eligible
entry of the priority-ordered scan, which need not be the globally
top-priority entry); it returns nothing on an empty queue, and nothing when
no entry is eligible. -/
theorem C1_getNext_policy (now : ℚ) (qs : QueueState)
    (hwf : ∀ qt ∈ qs.queue, 0 < qt.attempts → qt.lastAttempt.isSome) :
    (qs.queue = [] → TaskQueue.getNext now qs = none) ∧
    ((∃ qt ∈ qs.queue, eligibleClaim now qs.retryDelayMs qt) →
      ∃ qt ∈ qs.queue, eligibleClaim now qs.retryDelayMs qt ∧
        TaskQueue.getNext now qs = some qt.task ∧
        (∀ qt' ∈ qs.queue, eligibleClaim now qs.retryDelayMs qt' →
          qt'.priority ≤ qt.priority) ∧
        (∀ qt' ∈ qs.queue, eligibleClaim now qs.retryDelayMs qt' →
          qt'.priority = qt.priority → qt.queuedAt ≤ qt'.queuedAt)) ∧
    ((∀ qt ∈ qs.queue, ¬ eligibleClaim now qs.retryDelayMs qt) →
      TaskQueue.getNext now qs = none) := by
  have heq := getNext_eq_find now qs
  have hperm : ∀ x : QueuedTask,
      x ∈ List.insertionSort TaskQueue.qLe qs.queue ↔ x ∈ qs.queue :=
    fun _ => List.mem_insertionSort _
  have hsorted : List.Pairwise TaskQueue.qLe
      (List.insertionSort TaskQueue.qLe qs.queue) :=
    List.sorted_insertionSort _ _
  refine ⟨?_, ?_, ?_⟩
  · intro h
    rw [heq, h]
    rfl
  · rintro ⟨qt0, hqt0, helig0⟩
    have hfound : ∃ x, (List.insertionSort TaskQueue.qLe qs.queue).find?
        (TaskQueue.retryEligibleB now qs.retryDelayMs) = some x := by
      rcases hx : (List.insertionSort TaskQueue.qLe qs.queue).find?
          (TaskQueue.retryEligibleB now qs.retryDelayMs) with _ | x
      · exact absurd ((retryEligibleB_iff now _ qt0 (hwf qt0 hqt0)).2 helig0)
          (List.find?_eq_none.1 hx qt0 ((hperm qt0).2 hqt0))
      · exact ⟨x, rfl⟩
    obtain ⟨x, hx⟩ := hfound
    obtain ⟨hpx, hmin⟩ := find?_pairwise_min hsorted hx
    have hxmem : x ∈ qs.queue := (hperm x).1 (List.mem_of_find?_eq_some hx)
    refine ⟨x, hxmem, (retryEligibleB_iff now _ x (hwf x hxmem)).1 hpx, ?_, ?_, ?_⟩
    · rw [heq, hx]
      rfl
    · intro qt' hq' he'
      have hb' := (retryEligibleB_iff now _ qt' (hwf qt' hq')).2 he'
      rcases hmin qt' ((hperm qt').2 hq') hb' with rfl | hle
      · exact le_refl _
      · rcases hle with h | ⟨h, _⟩
        · exact le_of_lt h
        · exact le_of_eq h.symm
    · intro qt' hq' he' hpri
      have hb' := (retryEligibleB_iff now _ qt' (hwf qt' hq')).2 he'
      rcases hmin qt' ((hperm qt').2 hq') hb' with rfl | hle
      · exact le_refl _
      · rcases hle with h | ⟨_, h⟩
        · exact absurd hpri (ne_of_lt h)
        · exact h
  · intro hnone
    rw [heq]
    rcases hx : (List.insertionSort TaskQueue.qLe qs.queue).find?
        (TaskQueue.retryEligibleB now qs.retryDelayMs) with _ | x
    · rfl
    · have hxmem : x ∈ qs.queue := (hperm x).1 (List.mem_of_find?_eq_some hx)
      exact absurd ((retryEligibleB_iff now _ x (hwf x hxmem)).1 (List.find?_some hx))
        (hnone x hxmem)

/-- Instantiation of the `getNext` policy on a two-entry queue (priorities 5
and 1, both eligible): the priority-5 task is returned. -/
theorem C1_getNext_policy_witness :
    (∀ qt ∈ c1Queue.queue, 0 < qt.attempts → qt.lastAttempt.isSome) ∧
    (∃ qt ∈ c1Queue.queue, eligibleClaim 0 c1Queue.retryDelayMs qt ∧
      TaskQueue.getNext 0 c1Queue = some qt.task ∧
      (∀ qt' ∈ c1Queue.queue, eligibleClaim 0 c1Queue.retryDelayMs qt' →
        qt'.priority ≤ qt.priority) ∧
      (∀ qt' ∈ c1Queue.queue, eligibleClaim 0 c1Queue.retryDelayMs qt' →
        qt'.priority = qt.priority → qt.queuedAt ≤ qt'.queuedAt)) :=
  have hwf : ∀ qt ∈ c1Queue.queue, 0 < qt.attempts → qt.lastAttempt.isSome := by
    decide
  ⟨hwf, (C1_getNext_policy 0 c1Queue hwf).2.1
    ⟨c1Entry1, List.mem_cons_of_mem _ (List.mem_cons_self _ _), Or.inl rfl⟩⟩

/-- C4: an `executeTask` request whose explicit agent id is not registered
(and whose task exists in the store) throws the agent-not-found error,
leaves the orchestrator state (agent pool and queue ledger) untouched, and
issues no effect: no store write, no message, no notification, no launched
run. -/
theorem C4_executeTask_unregistered (tasks : List Task)
    (st : Orchestrator.OrchestratorState) (now : Millis)
    (req : Orchestrator.ExecuteTaskRequest) (aid : String) (task : Task)
    (hreq : req.agentId = some aid)
    (htask : tasks.find? (fun t => decide (t.id = req.taskId)) = some task)
    (hagent : st.agents.find? (fun kv => decide (kv.1 = aid)) = none) :
    Orchestrator.executeTask tasks now st req =
      .threw ("Agent " ++ aid ++ " not found or not registered") st [] := by
  unfold Orchestrator.executeTask
  rw [htask, hreq]
  simp [hagent]

/-- Instantiation: requesting task t9 with the unregistered agent id "ghost"
throws and leaves the state untouched with no effects. -/
theorem C4_executeTask_unregistered_witness :
    c4Request.agentId = some "ghost" ∧
    c4Tasks.find? (fun t => decide (t.id = c4Request.taskId)) =
      some (sampleTask "t9" none) ∧
    c4State.agents.find? (fun kv => decide (kv.1 = "ghost")) = none ∧
    Orchestrator.executeTask c4Tasks 0 c4State c4Request =
      .threw ("Agent " ++ "ghost" ++ " not found or not registered") c4State [] :=
  ⟨rfl, rfl, rfl,
   C4_executeTask_unregistered c4Tasks c4State 0 c4Request "ghost"
     (sampleTask "t9" none) rfl rfl rfl⟩

/-- C5: a condition step always reports engine-level success and routes to
`trueStep`/`falseStep` according to the evaluated expression; the run loop's
transfer for it never depends on the step's `onFailure`; and when the
expression reaches the comparison stage, the evaluator applies the first
operator of the fixed checklist `===, !==, ==, !=, >=, <=, >, <` that occurs
as a substring. -/
theorem C5_condition_step (cfg : WorkflowEngine.ConditionConfig)
    (ctx : WorkflowEngine.WfContext) :
    (WorkflowEngine.executeCondition cfg ctx).success = true ∧
    (WorkflowEngine.executeCondition cfg ctx).nextStepId =
      some (if WorkflowEngine.evaluateCondition cfg.check ctx then cfg.trueStep
            else cfg.falseStep) ∧
    (∀ (steps : List WorkflowEngine.WorkflowStep) (i : ℕ)
        (st : WorkflowEngine.WorkflowStep),
      WorkflowEngine.nextStepControl steps st
          (WorkflowEngine.executeCondition cfg ctx) i =
        WorkflowEngine.nextStepControl steps { st with onFailure := none }
          (WorkflowEngine.executeCondition cfg ctx) i) ∧
    (∀ e : String, strEndsWith e ".exists" = false →
      hasSubstr " contains " e = false →
      ∀ op, WorkflowEngine.firstOperator e = some op →
        WorkflowEngine.evaluateCondition e ctx =
          WorkflowEngine.evalComparisonAt op e ctx) := by
  refine ⟨rfl, rfl, ?_, ?_⟩
  · intro steps i st
    simp [WorkflowEngine.nextStepControl, WorkflowEngine.executeCondition]
  · intro e h1 h2 op hop
    unfold WorkflowEngine.evaluateCondition
    rw [h1, h2]
    simp only [Bool.false_eq_true, if_false]
    rw [condOpLoop_eq_find]
    unfold WorkflowEngine.firstOperator at hop
    rw [hop]
    rfl

/-- Instantiation on testable-property 9: `results.test.success == true`
against a context where that value is true takes the comparison path on
operator `==` and routes to the configured `trueStep`. -/
theorem C5_condition_step_witness :
    strEndsWith c5Config.check ".exists" = false ∧
    hasSubstr " contains " c5Config.check = false ∧
    WorkflowEngine.firstOperator c5Config.check = some "==" ∧
    WorkflowEngine.evaluateCondition c5Config.check c5Ctx =
      WorkflowEngine.evalComparisonAt "==" c5Config.check c5Ctx ∧
    WorkflowEngine.evaluateCondition c5Config.check c5Ctx = true ∧
    (WorkflowEngine.executeCondition c5Config c5Ctx).success = true ∧
    (WorkflowEngine.executeCondition c5Config c5Ctx).nextStepId =
      some (if WorkflowEngine.evaluateCondition c5Config.check c5Ctx then
        c5Config.trueStep else c5Config.falseStep) :=
  ⟨rfl, rfl, rfl,
   (C5_condition_step c5Config c5Ctx).2.2.2 c5Config.check rfl rfl "==" rfl,
   rfl,
   (C5_condition_step c5Config c5Ctx).1,
   (C5_condition_step c5Config c5Ctx).2.1⟩

/-- C7: `buildSystemPrompt` is referentially pure (identical inputs give
identical output) and its output is exactly the newline-join of the five
sections in the fixed order persona soul → rules → limiters → block triggers
→ task context. -/
theorem C7_buildSystemPrompt_pure (a : Agente) (c₁ c₂ : Option PromptContext)
    (h : c₁ = c₂) :
    PersonaManager.buildSystemPrompt a c₁ = PersonaManager.buildSystemPrompt a c₂ ∧
    PersonaManager.buildSystemPrompt a c₁ =
      strIntercalate "\n"
        (PersonaManager.soulSection a ++ PersonaManager.rulesSection a ++
         PersonaManager.limitersSection a ++ PersonaManager.triggersSection a ++
         PersonaManager.contextSection c₁) := by
  subst h
  exact ⟨rfl, rfl⟩

/-- The trigger loop equals a first-match search with the flat firing
predicate. -/
theorem checkTriggersGo_eq_find (ctx : PersonaManager.TriggerSignals) :
    ∀ l, PersonaManager.checkTriggersGo ctx l =
      l.find? (PersonaManager.triggerFiresB ctx) := by
  intro l
  induction l with
  | nil => rfl
  | cons trigger rest ih =>
    have hfind : List.find? (PersonaManager.triggerFiresB ctx) (trigger :: rest) =
        if PersonaManager.triggerFiresB ctx trigger then some trigger
        else List.find? (PersonaManager.triggerFiresB ctx) rest := by
      by_cases hb : PersonaManager.triggerFiresB ctx trigger = true
      · rw [if_pos hb]
        exact List.find?_cons_of_pos _ hb
      · rw [if_neg (by simpa using hb)]
        exact List.find?_cons_of_neg _ hb
    simp only [PersonaManager.checkTriggersGo]
    rw [hfind, ih, PersonaManager.triggerFiresB]
    cases hA : hasSubstr "uncertainty" (strToLower trigger.condition) &&
        PersonaManager.uncertaintySignalFires ctx (strToLower trigger.condition) <;>
    cases hB : hasSubstr "external_access" (strToLower trigger.condition) &&
        ctx.requiresExternalAccess <;>
    cases hC : hasSubstr "destructive" (strToLower trigger.condition) &&
        ctx.isDestructive <;>
    cases hD : hasSubstr "cost" (strToLower trigger.condition) &&
        PersonaManager.costSignalFires ctx <;>
    simp [hA, hB, hC, hD]

/-- C6 (counterexample): the claim reads the threshold as a TRAILING
floating-point literal, but the source regex `/[\d.]+/` takes the FIRST
digit run.  For the condition "uncertainty2 > 0.5" with uncertainty 1, the
trailing literal is 0.5 < 1, so the claim predicts the trigger fires, yet
the code parses the threshold 2 and returns none. -/
theorem C6_checkBlockTriggers_counterexample :
    PersonaManager.checkBlockTriggers c6agente c6ctx = none ∧
    c6ctx.uncertainty = some 1 ∧
    trailingFloatLiteral c6trigger.condition = some (1 / 2) ∧
    ((1 : ℚ) > 1 / 2) := by
  refine ⟨rfl, rfl, ?_, by norm_num⟩
  have h1 : trailingFloatLiteral c6trigger.condition =
      some ((digitsToNat ['0'] : ℚ) + (digitsToNat ['5'] : ℚ) / (10 : ℚ) ^ 1) := rfl
  have h2 : digitsToNat ['0'] = 0 := rfl
  have h3 : digitsToNat ['5'] = 5 := rfl
  rw [h1, h2, h3]
  norm_num

/-- C6 (amended): `checkBlockTriggers` returns the first trigger of the
declared list whose keyword check fires against the supplied signals —
uncertainty compares the signal strictly against the threshold parsed via
`parseFloat` from the FIRST digit-or-dot run of the lowercased condition
(0.8 when no such run exists); external_access and destructive fire on their
boolean signals; cost fires when estimatedCost exceeds costLimit, both
supplied; none when no trigger fires or the list is absent or empty. -/
theorem C6_checkBlockTriggers_first_match (agente : Agente)
    (ctx : PersonaManager.TriggerSignals) :
    PersonaManager.checkBlockTriggers agente ctx =
      (agente.gatilhos_bloqueio.getD []).find?
        (PersonaManager.triggerFiresB ctx) := by
  unfold PersonaManager.checkBlockTriggers
  cases hg : agente.gatilhos_bloqueio with
  | none => rfl
  | some l =>
    cases l with
    | nil => rfl
    | cons t rest => simp [listTruthy, checkTriggersGo_eq_find]

/-- C2 (counterexample): enqueue, markAttempt, then enqueue the same task id
again — the attempts counter drops from 1 back to 0 while the entry is still
present, so attempts is not monotonic under a repeated enqueue. -/
theorem C2_attempts_counterexample :
    TaskQueue.attemptsOf "t1" c2Step2 = some 1 ∧
    TaskQueue.attemptsOf "t1" c2Step3 = some 0 ∧ ¬ ((1 : ℕ) ≤ 0) :=
  ⟨rfl, rfl, by decide⟩

/-- `find?` over a filter that can only discard non-matches is `find?` over
the original list. -/
theorem find?_filter_of_imp {α : Type} (p q : α → Bool)
    (h : ∀ a, q a = true → p a = true) (l : List α) :
    (l.filter p).find? q = l.find? q := by
  induction l with
  | nil => rfl
  | cons x xs ih =>
    by_cases hq : q x = true
    · have hp := h x hq
      rw [List.filter_cons, if_pos hp, List.find?_cons_of_pos _ hq,
        List.find?_cons_of_pos _ hq]
    · by_cases hp : p x = true
      · rw [List.filter_cons, if_pos hp, List.find?_cons_of_neg _ hq,
          List.find?_cons_of_neg _ hq, ih]
      · rw [List.filter_cons, if_neg hp, List.find?_cons_of_neg _ hq, ih]

/-- Attempts read through `updateFirst` never decrease when the mutation
preserves ids and never lowers attempts. -/
theorem attemptsOf_updateFirst_le (tid : String) (p : QueuedTask → Bool)
    (g : QueuedTask → QueuedTask) (hid : ∀ qt, (g qt).task.id = qt.task.id)
    (hat : ∀ qt, qt.attempts ≤ (g qt).attempts) :
    ∀ (l : List QueuedTask) (a b : ℕ),
      (l.find? (fun qt => decide (qt.task.id = tid))).map (·.attempts) = some a →
      ((updateFirst p g l).find? (fun qt => decide (qt.task.id = tid))).map
        (·.attempts) = some b →
      a ≤ b := by
  intro l
  induction l with
  | nil => intro a b hold _; simp at hold
  | cons x xs ih =>
    intro a b hold hnew
    by_cases hx : x.task.id = tid
    · have h1 : List.find? (fun qt => decide (qt.task.id = tid)) (x :: xs) =
          some x := List.find?_cons_of_pos _ (by simpa using hx)
      rw [h1] at hold
      simp only [Option.map_some', Option.some.injEq] at hold
      by_cases hp : p x = true
      · rw [updateFirst, if_pos hp] at hnew
        have h2 : List.find? (fun qt => decide (qt.task.id = tid)) (g x :: xs) =
            some (g x) := List.find?_cons_of_pos _ (by simp [hid x, hx])
        rw [h2] at hnew
        simp only [Option.map_some', Option.some.injEq] at hnew
        have := hat x
        omega
      · rw [updateFirst, if_neg hp] at hnew
        have h2 : List.find? (fun qt => decide (qt.task.id = tid))
            (x :: updateFirst p g xs) = some x :=
          List.find?_cons_of_pos _ (by simpa using hx)
        rw [h2] at hnew
        simp only [Option.map_some', Option.some.injEq] at hnew
        omega
    · have h1 : List.find? (fun qt => decide (qt.task.id = tid)) (x :: xs) =
          List.find? (fun qt => decide (qt.task.id = tid)) xs :=
        List.find?_cons_of_neg _ (by simpa using hx)
      rw [h1] at hold
      by_cases hp : p x = true
      · rw [updateFirst, if_pos hp] at hnew
        have h2 : List.find? (fun qt => decide (qt.task.id = tid)) (g x :: xs) =
            List.find? (fun qt => decide (qt.task.id = tid)) xs :=
          List.find?_cons_of_neg _ (by simp [hid x, hx])
        rw [h2] at hnew
        rw [hold] at hnew
        have hab : a = b := Option.some.inj hnew
        omega
      · rw [updateFirst, if_neg hp] at hnew
        have h2 : List.find? (fun qt => decide (qt.task.id = tid))
            (x :: updateFirst p g xs) =
            List.find? (fun qt => decide (qt.task.id = tid)) (updateFirst p g xs) :=
          List.find?_cons_of_neg _ (by simpa using hx)
        rw [h2] at hnew
        exact ih a b hold hnew

/-- A queued task id is still found, with one more attempt, after
`markAttempt` on that id. -/
theorem attemptsOf_markAttempt_self (tid : String) (now : ℚ) (qs : QueueState)
    (a : ℕ) (h : TaskQueue.attemptsOf tid qs = some a) :
    TaskQueue.attemptsOf tid (TaskQueue.markAttempt tid now qs) = some (a + 1) := by
  unfold TaskQueue.attemptsOf at h ⊢
  unfold TaskQueue.markAttempt
  revert h
  generalize qs.queue = l
  induction l with
  | nil => intro h; simp at h
  | cons x xs ih =>
    intro h
    by_cases hx : x.task.id = tid
    · have h1 : List.find? (fun qt => decide (qt.task.id = tid)) (x :: xs) =
          some x := List.find?_cons_of_pos _ (by simpa using hx)
      rw [h1] at h
      simp only [Option.map_some', Option.some.injEq] at h
      rw [updateFirst, if_pos (show decide (x.task.id = tid) = true by simpa using hx)]
      have h2 : List.find? (fun qt => decide (qt.task.id = tid))
          (TaskQueue.bumpAttempt now x :: xs) = some (TaskQueue.bumpAttempt now x) :=
        List.find?_cons_of_pos _ (by simpa [TaskQueue.bumpAttempt] using hx)
      rw [h2]
      simp [TaskQueue.bumpAttempt, h]
    · have h1 : List.find? (fun qt => decide (qt.task.id = tid)) (x :: xs) =
          List.find? (fun qt => decide (qt.task.id = tid)) xs :=
        List.find?_cons_of_neg _ (by simpa using hx)
      rw [h1] at h
      rw [updateFirst, if_neg (show ¬ decide (x.task.id = tid) = true by simpa using hx)]
      have h2 : List.find? (fun qt => decide (qt.task.id = tid))
          (x :: updateFirst (fun qt => decide (qt.task.id = tid))
            (TaskQueue.bumpAttempt now) xs) =
          List.find? (fun qt => decide (qt.task.id = tid))
            (updateFirst (fun qt => decide (qt.task.id = tid))
              (TaskQueue.bumpAttempt now) xs) :=
        List.find?_cons_of_neg _ (by simpa using hx)
      rw [h2]
      exact ih h

/-- The entry placed by `queueSet` is what a lookup on its id finds. -/
theorem find?_queueSet_self (qt : QueuedTask) (tid : String)
    (h : qt.task.id = tid) :
    ∀ l, (TaskQueue.queueSet qt l).find? (fun x => decide (x.task.id = tid)) =
      some qt := by
  intro l
  induction l with
  | nil =>
      show List.find? (fun x => decide (x.task.id = tid)) [qt] = some qt
      exact List.find?_cons_of_pos _ (by simpa using h)
  | cons x xs ih =>
    rw [TaskQueue.queueSet]
    by_cases hx : x.task.id = qt.task.id
    · rw [if_pos hx]
      exact List.find?_cons_of_pos _ (by simpa using h)
    · rw [if_neg hx]
      have hxne : ¬ x.task.id = tid := fun hc => hx (hc.trans h.symm)
      have h2 : List.find? (fun x => decide (x.task.id = tid))
          (x :: TaskQueue.queueSet qt xs) =
          List.find? (fun x => decide (x.task.id = tid))
            (TaskQueue.queueSet qt xs) :=
        List.find?_cons_of_neg _ (by simpa using hxne)
      rw [h2, ih]

/-- `queueSet` of a different id leaves a lookup unchanged. -/
theorem find?_queueSet_ne (qt : QueuedTask) (tid : String)
    (h : ¬ qt.task.id = tid) :
    ∀ l, (TaskQueue.queueSet qt l).find? (fun x => decide (x.task.id = tid)) =
      l.find? (fun x => decide (x.task.id = tid)) := by
  intro l
  induction l with
  | nil =>
      show List.find? (fun x => decide (x.task.id = tid)) [qt] = none
      have h2 : List.find? (fun x => decide (x.task.id = tid)) ([qt] : List QueuedTask) =
          List.find? (fun x => decide (x.task.id = tid)) ([] : List QueuedTask) :=
        List.find?_cons_of_neg _ (by simpa using h)
      rw [h2]
      rfl
  | cons x xs ih =>
    rw [TaskQueue.queueSet]
    by_cases hx : x.task.id = qt.task.id
    · rw [if_pos hx]
      have hxne : ¬ x.task.id = tid := fun hc => h (hx ▸ hc)
      have h1 : List.find? (fun x => decide (x.task.id = tid)) (qt :: xs) =
          List.find? (fun x => decide (x.task.id = tid)) xs :=
        List.find?_cons_of_neg _ (by simpa using h)
      have h2 : List.find? (fun x' => decide (x'.task.id = tid)) (x :: xs) =
          List.find? (fun x' => decide (x'.task.id = tid)) xs :=
        List.find?_cons_of_neg _ (by simpa using hxne)
      rw [h1, h2]
    · rw [if_neg hx]
      by_cases hxtid : x.task.id = tid
      · have h1 : List.find? (fun x' => decide (x'.task.id = tid))
            (x :: TaskQueue.queueSet qt xs) = some x :=
          List.find?_cons_of_pos _ (by simpa using hxtid)
        have h2 : List.find? (fun x' => decide (x'.task.id = tid)) (x :: xs) =
            some x := List.find?_cons_of_pos _ (by simpa using hxtid)
        rw [h1, h2]
      · have h1 : List.find? (fun x' => decide (x'.task.id = tid))
            (x :: TaskQueue.queueSet qt xs) =
            List.find? (fun x' => decide (x'.task.id = tid))
              (TaskQueue.queueSet qt xs) :=
          List.find?_cons_of_neg _ (by simpa using hxtid)
        have h2 : List.find? (fun x' => decide (x'.task.id = tid)) (x :: xs) =
            List.find? (fun x' => decide (x'.task.id = tid)) xs :=
          List.find?_cons_of_neg _ (by simpa using hxtid)
        rw [h1, h2, ih]

/-- A fresh `enqueue` of an id places an attempts-0 entry that the queue
lookup finds. -/
theorem attemptsOf_enqueue_self (t : Task) (pr : Option ℚ) (now : ℚ)
    (tid : String) (qs : QueueState) (h : t.id = tid) :
    TaskQueue.attemptsOf tid (TaskQueue.enqueue t pr now qs) = some 0 := by
  unfold TaskQueue.attemptsOf TaskQueue.enqueue
  rw [find?_queueSet_self _ tid h]
  rfl

/-- Enqueueing a different id leaves a queued entry's lookup unchanged. -/
theorem attemptsOf_enqueue_ne (t : Task) (pr : Option ℚ) (now : ℚ)
    (tid : String) (qs : QueueState) (h : ¬ t.id = tid) :
    TaskQueue.attemptsOf tid (TaskQueue.enqueue t pr now qs) =
      TaskQueue.attemptsOf tid qs := by
  unfold TaskQueue.attemptsOf TaskQueue.enqueue
  rw [find?_queueSet_ne _ tid h]

/-- A present entry makes `has` true. -/
theorem hasTask_of_attemptsOf (tid : String) (qs : QueueState) (a : ℕ)
    (h : TaskQueue.attemptsOf tid qs = some a) :
    TaskQueue.hasTask tid qs = true := by
  unfold TaskQueue.attemptsOf at h
  unfold TaskQueue.hasTask
  cases hf : qs.queue.find? (fun qt => decide (qt.task.id = tid)) with
  | none => rw [hf] at h; simp at h
  | some qt =>
      have hq := List.find?_some hf
      exact List.any_eq_true.2 ⟨qt, List.mem_of_find?_eq_some hf, hq⟩

/-- `dequeue` of another id preserves a queued entry's attempts; `dequeue` of
the same id removes it. -/
theorem attemptsOf_dequeue_le (tid tid' : String) (qs : QueueState) (a b : ℕ)
    (h : TaskQueue.attemptsOf tid qs = some a)
    (h' : TaskQueue.attemptsOf tid (TaskQueue.dequeue tid' qs).2 = some b) :
    a ≤ b := by
  unfold TaskQueue.attemptsOf TaskQueue.dequeue at *
  cases hf : qs.queue.find? (fun qt => decide (qt.task.id = tid')) with
  | none =>
      rw [hf] at h'
      simp only at h'
      rw [h] at h'
      cases h'
      exact le_refl _
  | some qt =>
      rw [hf] at h'
      simp only at h'
      by_cases he : tid = tid'
      · subst he
        have : (qs.queue.filter (fun x => !(decide (x.task.id = tid)))).find?
            (fun qt => decide (qt.task.id = tid)) = none :=
          List.find?_eq_none.2 (fun x hx => by
            have := (List.mem_filter.1 hx).2
            simp at this ⊢
            exact this)
        rw [this] at h'
        simp at h'
      · have heq : (qs.queue.filter (fun x => !(decide (x.task.id = tid')))).find?
            (fun qt => decide (qt.task.id = tid)) =
            qs.queue.find? (fun qt => decide (qt.task.id = tid)) :=
          find?_filter_of_imp _ _ (fun x hx => by
            simp at hx ⊢
            rw [hx]
            exact he) _
        rw [heq] at h'
        rw [h] at h'
        cases h'
        exact le_refl _

/-- `cleanup` never touches the pending queue. -/
theorem cleanup_queue_eq (n : ℕ) (qs : QueueState) :
    (TaskQueue.cleanup n qs).2.queue = qs.queue := by
  unfold TaskQueue.cleanup
  generalize (TaskQueue.sortedTerminals qs).drop n = l
  suffices h : ∀ (l : List (String × ExecutionState)) (acc : ℕ × QueueState),
      (l.foldl (fun acc kv => (acc.1 + 1, TaskQueue.deleteExecution kv.1 acc.2))
        acc).2.queue = acc.2.queue by
    exact h l (0, qs)
  intro l
  induction l with
  | nil => intro acc; rfl
  | cons kv rest ih => intro acc; exact ih _

/-- `syncFromTasks` never touches an entry that is already queued. -/
theorem attemptsOf_syncFromTasks (tasks : List Task) (now : ℚ) (qs : QueueState)
    (tid : String) (a : ℕ) (h : TaskQueue.attemptsOf tid qs = some a) :
    TaskQueue.attemptsOf tid (TaskQueue.syncFromTasks tasks now qs) = some a := by
  unfold TaskQueue.syncFromTasks
  revert qs
  induction tasks with
  | nil => intro qs h; exact h
  | cons t ts ih =>
    intro qs h
    rw [List.foldl_cons]
    by_cases hc : t.status = TaskStatus.backlog ∧ TaskQueue.hasTask t.id qs = false ∧
        ¬ (t.id ∈ (TaskQueue.getActiveExecutions qs).map (·.taskId))
    · rw [if_pos hc]
      have hne : ¬ t.id = tid := by
        intro he
        rw [he] at hc
        rw [hasTask_of_attemptsOf tid qs a h] at hc
        exact Bool.true_eq_false.mp hc.2.1
      exact ih _ ((attemptsOf_enqueue_ne t none now tid qs hne).trans h)
    · rw [if_neg hc]
      exact ih _ h

/-- C2 (amended): the attempts counter of a queued entry is monotonic under
every TaskQueue operation except `enqueue`: `markAttempt` on its id
increments it by exactly one and no other mutator lowers it (removal by
`dequeue`/`startExecution` aside), while a repeated `enqueue` of the same
task id replaces the entry wholesale and resets attempts to 0. -/
theorem C2_attempts_monotonic_except_enqueue (qs : QueueState)
    (tid tid' aid : String) (p now : ℚ) (n a : ℕ)
    (h : TaskQueue.attemptsOf tid qs = some a) :
    TaskQueue.attemptsOf tid (TaskQueue.markAttempt tid now qs) = some (a + 1) ∧
    (∀ b, TaskQueue.attemptsOf tid (TaskQueue.markAttempt tid' now qs) = some b →
      a ≤ b) ∧
    (∀ b, TaskQueue.attemptsOf tid (TaskQueue.updatePriority tid' p qs) = some b →
      a ≤ b) ∧
    (∀ b, TaskQueue.attemptsOf tid (TaskQueue.dequeue tid' qs).2 = some b →
      a ≤ b) ∧
    (∀ b, TaskQueue.attemptsOf tid (TaskQueue.startExecution tid' aid now qs).2 =
      some b → a ≤ b) ∧
    (∀ b, TaskQueue.attemptsOf tid (TaskQueue.cleanup n qs).2 = some b → a ≤ b) ∧
    (∀ tasks, TaskQueue.attemptsOf tid (TaskQueue.syncFromTasks tasks now qs) =
      some a) ∧
    (∀ (t : Task) (pr : Option ℚ), t.id = tid →
      TaskQueue.attemptsOf tid (TaskQueue.enqueue t pr now qs) = some 0) := by
  refine ⟨attemptsOf_markAttempt_self tid now qs a h, ?_, ?_, ?_, ?_, ?_, ?_, ?_⟩
  · intro b hb
    exact attemptsOf_updateFirst_le tid (fun qt => decide (qt.task.id = tid'))
      (TaskQueue.bumpAttempt now) (fun _ => rfl) (fun _ => Nat.le_succ _)
      qs.queue a b h hb
  · intro b hb
    exact attemptsOf_updateFirst_le tid (fun qt => decide (qt.task.id = tid'))
      (TaskQueue.setPriority p) (fun _ => rfl) (fun _ => le_refl _)
      qs.queue a b h hb
  · intro b hb
    exact attemptsOf_dequeue_le tid tid' qs a b h hb
  · intro b hb
    have hqe : TaskQueue.attemptsOf tid (TaskQueue.startExecution tid' aid now qs).2 =
        TaskQueue.attemptsOf tid (TaskQueue.dequeue tid' qs).2 := by
      unfold TaskQueue.attemptsOf TaskQueue.startExecution TaskQueue.dequeue
      cases hf : qs.queue.find? (fun qt => decide (qt.task.id = tid')) <;> simp [hf]
    rw [hqe] at hb
    exact attemptsOf_dequeue_le tid tid' qs a b h hb
  · intro b hb
    rw [show TaskQueue.attemptsOf tid (TaskQueue.cleanup n qs).2 =
        TaskQueue.attemptsOf tid qs from by
      unfold TaskQueue.attemptsOf
      rw [cleanup_queue_eq]] at hb
    rw [h] at hb
    cases hb
    exact le_refl _
  · intro tasks
    exact attemptsOf_syncFromTasks tasks now qs tid a h
  · intro t pr ht
    exact attemptsOf_enqueue_self t pr now tid qs ht

/-- Instantiation: with t1 queued at one attempt, markAttempt moves it to 2,
the non-enqueue mutators keep it at least 1, and a repeated enqueue resets it
to 0. -/
theorem C2_attempts_monotonic_witness :
    TaskQueue.attemptsOf "t1" c2Step2 = some 1 ∧
    TaskQueue.attemptsOf "t1" (TaskQueue.markAttempt "t1" 20 c2Step2) = some 2 ∧
    (∀ tasks, TaskQueue.attemptsOf "t1"
      (TaskQueue.syncFromTasks tasks 20 c2Step2) = some 1) ∧
    (∀ (t : Task) (pr : Option ℚ), t.id = "t1" →
      TaskQueue.attemptsOf "t1" (TaskQueue.enqueue t pr 20 c2Step2) = some 0) :=
  have h : TaskQueue.attemptsOf "t1" c2Step2 = some 1 := rfl
  ⟨h, (C2_attempts_monotonic_except_enqueue c2Step2 "t1" "t2" "a" 0 20 0 1 h).1,
   (C2_attempts_monotonic_except_enqueue c2Step2 "t1" "t2" "a" 0 20 0 1 h).2.2.2.2.2.2.1,
   (C2_attempts_monotonic_except_enqueue c2Step2 "t1" "t2" "a" 0 20 0 1 h).2.2.2.2.2.2.2⟩

/-- C9 (code bug): the notify interpolation replaces only bare-name tokens
for input entries and top-level `results.key` tokens for step results, so the
`input.x` / `results.step.x` token forms the spec (and the repository's own
workflow templates) use are left in the message verbatim. -/
theorem C9_notify_interpolation_bug :
    WorkflowEngine.interpolateNotifyMessage c9Template c9Ctx = c9Template ∧
    hasSubstr "\x7b\x7binput.taskTitle\x7d\x7d"
      (WorkflowEngine.interpolateNotifyMessage c9Template c9Ctx) = true ∧
    WorkflowEngine.interpolateNotifyMessage c9Template c9Ctx ≠
      "Task \"Demo\" completed successfully!" ∧
    WorkflowEngine.interpolateNotifyMessage c9Template2 c9Ctx2 = c9Template2 ∧
    hasSubstr "\x7b\x7bresults.generate.report\x7d\x7d"
      (WorkflowEngine.interpolateNotifyMessage c9Template2 c9Ctx2) = true ∧
    (WorkflowEngine.executeNotify
        { channel := "discord", target := none, message := c9Template } c9Ctx
        (fun _ _ => .sendOk)).output =
      some (.vObj [("channel", .vStr "discord"), ("message", .vStr c9Template)]) :=
  ⟨rfl, by decide, by decide, rfl, by decide, rfl⟩

/-- C10: `getExecutionByTaskId` returns the first matching execution in
ledger insertion (creation) order — the oldest surviving one — and
`getTaskProgress` reports that execution's status and progress. -/
theorem C10_getExecutionByTaskId_oldest (qs : QueueState) (tid : String)
    (now : Millis) (l₁ l₂ : List (String × ExecutionState))
    (kv : String × ExecutionState)
    (hsplit : qs.executions = l₁ ++ kv :: l₂)
    (hmatch : kv.2.execution.taskId = tid)
    (hbefore : ∀ x ∈ l₁, ¬ x.2.execution.taskId = tid) :
    TaskQueue.getExecutionByTaskId tid qs = some kv.2.execution ∧
    Orchestrator.getTaskProgress tid now qs =
      some { taskId := kv.2.execution.taskId, agentId := kv.2.execution.agentId
             status := kv.2.execution.status, progress := kv.2.execution.progress
             currentStep := none
             message := kv.2.execution.logs.getLast?.map (·.message)
             timestamp := now } := by
  have hfind : qs.executions.find?
      (fun x => decide (x.2.execution.taskId = tid)) = some kv := by
    rw [hsplit, List.find?_append]
    have h1 : l₁.find? (fun x => decide (x.2.execution.taskId = tid)) = none :=
      List.find?_eq_none.2 (fun x hx => by simpa using hbefore x hx)
    have h2 : List.find? (fun x => decide (x.2.execution.taskId = tid))
        (kv :: l₂) = some kv := List.find?_cons_of_pos _ (by simpa using hmatch)
    rw [h1, h2]
    rfl
  constructor
  · unfold TaskQueue.getExecutionByTaskId
    rw [hfind]
    rfl
  · unfold Orchestrator.getTaskProgress TaskQueue.getExecutionByTaskId
    rw [hfind]
    rfl

/-- Instantiation: with two executions for task t5 in creation order, the
older failed one is returned (not the newer running one), and
`getTaskProgress` reports the older execution's status and progress. -/
theorem C10_getExecutionByTaskId_oldest_witness :
    c10Ledger.executions = [] ++ c10Old :: [c10New] ∧
    c10Old.2.execution.taskId = "t5" ∧
    c10New.2.execution.taskId = "t5" ∧
    TaskQueue.getExecutionByTaskId "t5" c10Ledger = some c10Old.2.execution ∧
    TaskQueue.getExecutionByTaskId "t5" c10Ledger ≠ some c10New.2.execution ∧
    Orchestrator.getTaskProgress "t5" 99 c10Ledger =
      some { taskId := c10Old.2.execution.taskId
             agentId := c10Old.2.execution.agentId
             status := c10Old.2.execution.status
             progress := c10Old.2.execution.progress
             currentStep := none
             message := c10Old.2.execution.logs.getLast?.map (·.message)
             timestamp := 99 } :=
  have h := C10_getExecutionByTaskId_oldest c10Ledger "t5" 99 [] [c10New] c10Old
    rfl rfl (fun x hx => absurd hx (List.not_mem_nil x))
  ⟨rfl, rfl, rfl, h.1, by rw [h.1]; decide, h.2⟩

/-- Instantiation on a profile exercising every section. -/
theorem C7_buildSystemPrompt_pure_witness :
    (some c7Context = some c7Context) ∧
    PersonaManager.buildSystemPrompt c7Agente (some c7Context) =
      PersonaManager.buildSystemPrompt c7Agente (some c7Context) ∧
    PersonaManager.buildSystemPrompt c7Agente (some c7Context) =
      strIntercalate "\n"
        (PersonaManager.soulSection c7Agente ++
         PersonaManager.rulesSection c7Agente ++
         PersonaManager.limitersSection c7Agente ++
         PersonaManager.triggersSection c7Agente ++
         PersonaManager.contextSection (some c7Context)) :=
  ⟨rfl, (C7_buildSystemPrompt_pure c7Agente (some c7Context) (some c7Context) rfl).1,
   (C7_buildSystemPrompt_pure c7Agente (some c7Context) (some c7Context) rfl).2⟩

/-- The head of an `orderedInsert` under the score relation. -/
theorem head?_orderedInsert_scoreLe (x : AgentInstance × ℚ)
    (l : List (AgentInstance × ℚ)) :
    (List.orderedInsert Orchestrator.scoreLe x l).head? =
      some (match l.head? with
            | none => x
            | some y => if Orchestrator.scoreLe x y then x else y) := by
  cases l with
  | nil => rfl
  | cons y ys =>
      rw [List.orderedInsert]
      by_cases h : Orchestrator.scoreLe x y
      · rw [if_pos h]
        simp [h]
      · rw [if_neg h]
        simp [h]

/-- The head of the stable descending sort is the leftmost maximal-score
pair. -/
theorem head?_insertionSort_scoreLe (l : List (AgentInstance × ℚ)) :
    (List.insertionSort Orchestrator.scoreLe l).head? = firstMaxScored l := by
  induction l with
  | nil => rfl
  | cons x xs ih =>
      rw [List.insertionSort, head?_orderedInsert_scoreLe, firstMaxScored, ← ih]

/-- `firstMaxScored` returns `none` only on the empty list. -/
theorem firstMaxScored_eq_none (l : List (AgentInstance × ℚ))
    (h : firstMaxScored l = none) : l = [] := by
  cases l with
  | nil => rfl
  | cons x xs => rw [firstMaxScored] at h; simp at h

/-- Every score is bounded by the leftmost maximum. -/
theorem firstMaxScored_le (l : List (AgentInstance × ℚ)) :
    ∀ m, firstMaxScored l = some m → ∀ x ∈ l, x.2 ≤ m.2 := by
  induction l with
  | nil => intro m h; simp [firstMaxScored] at h
  | cons x xs ih =>
    intro m h
    rw [firstMaxScored] at h
    cases hf : firstMaxScored xs with
    | none =>
        have hxs := firstMaxScored_eq_none xs hf
        rw [hf] at h
        simp only [Option.some.injEq] at h
        subst hxs
        intro y hy
        rcases List.mem_cons.1 hy with rfl | hy
        · rw [← h]
        · simp at hy
    | some m' =>
        rw [hf] at h
        simp only [Option.some.injEq] at h
        by_cases hc : Orchestrator.scoreLe x m'
        · rw [if_pos hc] at h
          subst h
          intro y hy
          rcases List.mem_cons.1 hy with rfl | hy
          · exact le_refl _
          · exact (ih m' hf y hy).trans hc
        · rw [if_neg hc] at h
          subst h
          intro y hy
          rcases List.mem_cons.1 hy with rfl | hy
          · exact le_of_lt (lt_of_not_le hc)
          · exact ih m' hf y hy

/-- The leftmost maximum splits the list into a strictly-smaller prefix and a
no-larger suffix. -/
theorem firstMaxScored_decomp (l : List (AgentInstance × ℚ)) :
    ∀ m, firstMaxScored l = some m →
      ∃ l₁ l₂, l = l₁ ++ m :: l₂ ∧ (∀ b ∈ l₁, b.2 < m.2) ∧
        (∀ b ∈ l₂, b.2 ≤ m.2) := by
  induction l with
  | nil => intro m h; simp [firstMaxScored] at h
  | cons x xs ih =>
    intro m h
    rw [firstMaxScored] at h
    cases hf : firstMaxScored xs with
    | none =>
        have hxs := firstMaxScored_eq_none xs hf
        rw [hf] at h
        simp only [Option.some.injEq] at h
        subst hxs
        exact ⟨[], [], by rw [h]; rfl, by simp, by simp⟩
    | some m' =>
        rw [hf] at h
        simp only [Option.some.injEq] at h
        by_cases hc : Orchestrator.scoreLe x m'
        · rw [if_pos hc] at h
          subst h
          refine ⟨[], xs, rfl, by simp, ?_⟩
          intro b hb
          exact (firstMaxScored_le xs m' hf b hb).trans hc
        · rw [if_neg hc] at h
          subst h
          obtain ⟨l₁, l₂, hsplit, hlt, hle⟩ := ih m' hf
          refine ⟨x :: l₁, l₂, by rw [hsplit]; rfl, ?_, hle⟩
          intro b hb
          rcases List.mem_cons.1 hb with rfl | hb
          · exact lt_of_not_le hc
          · exact hlt b hb

/-- On an agent whose recorded average duration is nonnegative (every
reachable pool state), the source's accumulated score equals the claim's
formula. -/
theorem codeScore_eq_claimScore (a : AgentInstance)
    (h : 0 ≤ a.metrics.averageTaskDuration) :
    Orchestrator.codeScore a = Orchestrator.claimScore a := by
  simp only [Orchestrator.codeScore, Orchestrator.claimScore,
    Orchestrator.claimSuccessRate]
  rcases lt_or_eq_of_le h with hpos | hzero
  · rw [if_pos hpos]
    by_cases htot : 0 < a.metrics.tasksCompleted + a.metrics.tasksFailed
    · rw [if_pos htot, if_neg (by omega)]
      push_cast
      ring
    · have hc : a.metrics.tasksCompleted = 0 := by omega
      rw [if_neg htot, if_pos (by omega), hc]
      push_cast
      ring
  · rw [← hzero]
    simp only [lt_self_iff_false, if_false]
    by_cases htot : 0 < a.metrics.tasksCompleted + a.metrics.tasksFailed
    · rw [if_pos htot, if_neg (by omega)]
      push_cast
      ring
    · have hc : a.metrics.tasksCompleted = 0 := by omega
      rw [if_neg htot, if_pos (by omega), hc]
      push_cast
      ring

/-- C3: on every pool whose recorded average durations are nonnegative,
`selectAgent` returns an idle and active agent; it returns none exactly when
no idle+active candidate exists; and the returned agent is the first
candidate, in pool iteration order, whose claim-formula score
`−0.1×completed + 10×successRate − avgMs/60000` is maximal (earlier
candidates score strictly lower, later ones no higher). -/
theorem C3_selectAgent_scoring (pool : List AgentInstance)
    (h : ∀ a ∈ pool, 0 ≤ a.metrics.averageTaskDuration) :
    (∀ a, Orchestrator.selectAgent pool = some a →
      a.status = AgentStatus.idle ∧ a.agente.ativo = true) ∧
    (Orchestrator.selectAgent pool = none ↔
      ∀ a ∈ pool, Orchestrator.isCandidate a = false) ∧
    (∀ a, Orchestrator.selectAgent pool = some a →
      ∃ l₁ l₂, pool.filter Orchestrator.isCandidate = l₁ ++ a :: l₂ ∧
        (∀ b ∈ l₁, Orchestrator.claimScore b < Orchestrator.claimScore a) ∧
        (∀ b ∈ l₂, Orchestrator.claimScore b ≤ Orchestrator.claimScore a)) := by
  have hsel : Orchestrator.selectAgent pool =
      if (pool.filter Orchestrator.isCandidate).length = 0 then none
      else (firstMaxScored ((pool.filter Orchestrator.isCandidate).map
        (fun a => (a, Orchestrator.codeScore a)))).map (·.1) := by
    simp only [Orchestrator.selectAgent]
    by_cases hl : (pool.filter Orchestrator.isCandidate).length = 0
    · rw [if_pos hl, if_pos hl]
    · rw [if_neg hl, if_neg hl, head?_insertionSort_scoreLe]
  have hdecomp : ∀ a, Orchestrator.selectAgent pool = some a →
      ∃ l₁ l₂, pool.filter Orchestrator.isCandidate = l₁ ++ a :: l₂ ∧
        (∀ b ∈ l₁, Orchestrator.claimScore b < Orchestrator.claimScore a) ∧
        (∀ b ∈ l₂, Orchestrator.claimScore b ≤ Orchestrator.claimScore a) := by
    intro a ha
    rw [hsel] at ha
    by_cases hl : (pool.filter Orchestrator.isCandidate).length = 0
    · rw [if_pos hl] at ha
      cases ha
    · rw [if_neg hl] at ha
      cases hm : firstMaxScored ((pool.filter Orchestrator.isCandidate).map
          (fun a => (a, Orchestrator.codeScore a))) with
      | none => rw [hm] at ha; cases ha
      | some m =>
          rw [hm] at ha
          simp only [Option.map_some', Option.some.injEq] at ha
          obtain ⟨l₁, l₂, hsplit, hlt, hle⟩ := firstMaxScored_decomp _ m hm
          rw [List.map_eq_append_iff] at hsplit
          obtain ⟨c₁, c₂, hcands, hmap₁, hmap₂⟩ := hsplit
          rw [List.map_eq_cons_iff] at hmap₂
          obtain ⟨x, c₂', hc₂, hfx, hmap₂'⟩ := hmap₂
          have hx : x = a := by rw [← ha, ← hfx]
          subst hx
          have hscore : m.2 = Orchestrator.codeScore x := by rw [← hfx]
          have hmemx : x ∈ pool.filter Orchestrator.isCandidate := by
            rw [hcands, hc₂]
            exact List.mem_append.2 (Or.inr (List.mem_cons_self _ _))
          have havg : ∀ b ∈ pool.filter Orchestrator.isCandidate,
              Orchestrator.codeScore b = Orchestrator.claimScore b := fun b hb =>
            codeScore_eq_claimScore b (h b (List.mem_filter.1 hb).1)
          refine ⟨c₁, c₂', by rw [hcands, hc₂], ?_, ?_⟩
          · intro b hb
            have hmem : b ∈ pool.filter Orchestrator.isCandidate := by
              rw [hcands]
              exact List.mem_append.2 (Or.inl hb)
            have := hlt (b, Orchestrator.codeScore b)
              (by rw [← hmap₁]; exact List.mem_map_of_mem _ hb)
            rw [← havg b hmem, ← havg x hmemx, ← hscore]
            exact this
          · intro b hb
            have hmem : b ∈ pool.filter Orchestrator.isCandidate := by
              rw [hcands, hc₂]
              exact List.mem_append.2 (Or.inr (List.mem_cons_of_mem _ hb))
            have := hle (b, Orchestrator.codeScore b)
              (by rw [← hmap₂']; exact List.mem_map_of_mem _ hb)
            rw [← havg b hmem, ← havg x hmemx, ← hscore]
            exact this
  refine ⟨?_, ?_, hdecomp⟩
  · intro a ha
    obtain ⟨l₁, l₂, hsplit, _, _⟩ := hdecomp a ha
    have hmem : a ∈ pool.filter Orchestrator.isCandidate := by
      rw [hsplit]
      exact List.mem_append.2 (Or.inr (List.mem_cons_self _ _))
    have := (List.mem_filter.1 hmem).2
    unfold Orchestrator.isCandidate at this
    simp only [Bool.and_eq_true, decide_eq_true_eq] at this
    exact this
  · rw [hsel]
    by_cases hl : (pool.filter Orchestrator.isCandidate).length = 0
    · rw [if_pos hl]
      simp only [true_iff]
      intro a ha
      have := List.filter_eq_nil.1 (List.length_eq_zero.1 hl) a ha
      simpa using this
    · rw [if_neg hl]
      constructor
      · intro hnone
        cases hm : firstMaxScored ((pool.filter Orchestrator.isCandidate).map
            (fun a => (a, Orchestrator.codeScore a))) with
        | some m => rw [hm] at hnone; cases hnone
        | none =>
            have := firstMaxScored_eq_none _ hm
            have hnil : pool.filter Orchestrator.isCandidate = [] := by
              cases hq : pool.filter Orchestrator.isCandidate with
              | nil => rfl
              | cons y ys => rw [hq] at this; simp at this
            exact absurd (congrArg List.length hnil) hl
      · intro hall
        have hnil : pool.filter Orchestrator.isCandidate = [] :=
          List.filter_eq_nil.2 (fun a ha => by rw [hall a ha]; simp)
        exact absurd (by rw [hnil]; rfl) hl

/-- Instantiation: a pool holding a working agent and an idle active agent —
the idle one is selected and is the unique score-maximal candidate. -/
theorem C3_selectAgent_scoring_witness :
    (∀ a ∈ [c3Agent2, c3Agent1], (0 : ℚ) ≤ a.metrics.averageTaskDuration) ∧
    (∀ a, Orchestrator.selectAgent [c3Agent2, c3Agent1] = some a →
      a.status = AgentStatus.idle ∧ a.agente.ativo = true) ∧
    Orchestrator.selectAgent [c3Agent2, c3Agent1] = some c3Agent1 ∧
    (∃ l₁ l₂,
      [c3Agent2, c3Agent1].filter Orchestrator.isCandidate = l₁ ++ c3Agent1 :: l₂ ∧
      (∀ b ∈ l₁, Orchestrator.claimScore b < Orchestrator.claimScore c3Agent1) ∧
      (∀ b ∈ l₂, Orchestrator.claimScore b ≤ Orchestrator.claimScore c3Agent1)) :=
  have havg : ∀ a ∈ [c3Agent2, c3Agent1], (0 : ℚ) ≤ a.metrics.averageTaskDuration := by
    decide
  have hsel : Orchestrator.selectAgent [c3Agent2, c3Agent1] = some c3Agent1 := rfl
  ⟨havg, (C3_selectAgent_scoring [c3Agent2, c3Agent1] havg).1, hsel,
   (C3_selectAgent_scoring [c3Agent2, c3Agent1] havg).2.2 c3Agent1 hsel⟩

/-- Unrolling the deletion loop of `cleanup`: the counter advances once per
dropped entry and the ledger ends up filtered by the whole dropped key set. -/
theorem cleanup_foldl_spec (l : List (String × ExecutionState)) (c : ℕ)
    (qs : QueueState) :
    (l.foldl (fun acc kv => (acc.1 + 1, TaskQueue.deleteExecution kv.1 acc.2))
      (c, qs)).1 = c + l.length ∧
    (l.foldl (fun acc kv => (acc.1 + 1, TaskQueue.deleteExecution kv.1 acc.2))
      (c, qs)).2.executions =
      qs.executions.filter (fun kv => l.all (fun d => !(decide (kv.1 = d.1)))) := by
  induction l generalizing c qs with
  | nil =>
      refine ⟨rfl, ?_⟩
      simp
  | cons d l ih =>
      rw [List.foldl_cons]
      obtain ⟨ih1, ih2⟩ := ih (c + 1) (TaskQueue.deleteExecution d.1 qs)
      refine ⟨?_, ?_⟩
      · rw [ih1]
        simp only [List.length_cons]
        omega
      · rw [ih2]
        simp only [TaskQueue.deleteExecution]
        rw [List.filter_filter]
        apply List.filter_congr
        intro x _
        simp only [List.all_cons]
        rw [Bool.and_comm]

/-- C8: `cleanup(keepLast)` removes exactly the terminal (completed or failed)
executions beyond the `keepLast` most recently completed and reports their
count; the retention order is the completion-time-descending stable sort;
non-terminal (in particular running) executions are never removed; a terminal
execution survives exactly when it sits in the first `keepLast` entries of
that sort.  Keys are assumed distinct, as a JS `Map` guarantees. -/
theorem C8_cleanup (n : ℕ) (qs : QueueState)
    (hnd : (qs.executions.map Prod.fst).Nodup) :
    (TaskQueue.cleanup n qs).1 =
      (qs.executions.filter
        (fun kv => TaskQueue.isTerminal kv.2.execution.status)).length - n ∧
    (TaskQueue.sortedTerminals qs).Sorted TaskQueue.cleanupLe ∧
    (TaskQueue.sortedTerminals qs).Perm
      (qs.executions.filter
        (fun kv => TaskQueue.isTerminal kv.2.execution.status)) ∧
    (∀ kv ∈ qs.executions, TaskQueue.isTerminal kv.2.execution.status = false →
      kv ∈ (TaskQueue.cleanup n qs).2.executions) ∧
    (∀ kv ∈ qs.executions, TaskQueue.isTerminal kv.2.execution.status = true →
      (kv ∈ (TaskQueue.cleanup n qs).2.executions ↔
        kv ∈ (TaskQueue.sortedTerminals qs).take n)) := by
  have hperm : (TaskQueue.sortedTerminals qs).Perm
      (qs.executions.filter
        (fun kv => TaskQueue.isTerminal kv.2.execution.status)) := by
    unfold TaskQueue.sortedTerminals
    exact List.perm_insertionSort _ _
  have hexnd : qs.executions.Nodup := List.Nodup.of_map _ hnd
  have hsortnd : (TaskQueue.sortedTerminals qs).Nodup :=
    hperm.nodup_iff.2 (hexnd.filter _)
  have hinj := List.inj_on_of_nodup_map hnd
  have hcount : (TaskQueue.cleanup n qs).1 =
      0 + ((TaskQueue.sortedTerminals qs).drop n).length := by
    unfold TaskQueue.cleanup
    exact (cleanup_foldl_spec _ 0 qs).1
  have hexe : (TaskQueue.cleanup n qs).2.executions =
      qs.executions.filter (fun kv =>
        ((TaskQueue.sortedTerminals qs).drop n).all
          (fun d => !(decide (kv.1 = d.1)))) := by
    unfold TaskQueue.cleanup
    exact (cleanup_foldl_spec _ 0 qs).2
  have hdropmem : ∀ d ∈ (TaskQueue.sortedTerminals qs).drop n,
      d ∈ qs.executions ∧ TaskQueue.isTerminal d.2.execution.status = true := by
    intro d hd
    have hds : d ∈ TaskQueue.sortedTerminals qs := List.mem_of_mem_drop hd
    have hdf := hperm.mem_iff.1 hds
    exact ⟨(List.mem_filter.1 hdf).1, (List.mem_filter.1 hdf).2⟩
  refine ⟨?_, ?_, hperm, ?_, ?_⟩
  · rw [hcount, Nat.zero_add, List.length_drop, hperm.length_eq]
  · unfold TaskQueue.sortedTerminals
    exact List.sorted_insertionSort _ _
  · intro kv hkv hnt
    rw [hexe]
    refine List.mem_filter.2 ⟨hkv, ?_⟩
    simp only [List.all_eq_true, Bool.not_eq_eq_eq_not, Bool.not_true,
      decide_eq_false_iff_not]
    intro d hd heq
    obtain ⟨hdex, hdterm⟩ := hdropmem d hd
    have hkd : kv = d := hinj hkv hdex heq
    rw [hkd, hdterm] at hnt
    cases hnt
  · intro kv hkv hterm
    rw [hexe]
    constructor
    · intro hmem
      have hall := (List.mem_filter.1 hmem).2
      simp only [List.all_eq_true, Bool.not_eq_eq_eq_not, Bool.not_true,
        decide_eq_false_iff_not] at hall
      have hkvsort : kv ∈ TaskQueue.sortedTerminals qs :=
        hperm.mem_iff.2 (List.mem_filter.2 ⟨hkv, hterm⟩)
      have hsplit := List.take_append_drop n (TaskQueue.sortedTerminals qs)
      rcases List.mem_append.1 (by rw [hsplit]; exact hkvsort) with htk | hdp
      · exact htk
      · exact absurd rfl (hall kv hdp)
    · intro htk
      refine List.mem_filter.2 ⟨hkv, ?_⟩
      simp only [List.all_eq_true, Bool.not_eq_eq_eq_not, Bool.not_true,
        decide_eq_false_iff_not]
      intro d hd heq
      obtain ⟨hdex, _⟩ := hdropmem d hd
      have hkd : kv = d := hinj hkv hdex heq
      exact List.disjoint_take_drop hsortnd (le_refl n) (hkd ▸ htk) hd

/-- Instantiation: `cleanup(0)` on a ledger holding only a running execution
removes nothing and retains the running entry. -/
theorem C8_cleanup_witness :
    (TaskQueue.cleanup 0 c8Ledger).1 = 0 ∧
    (∀ kv ∈ c8Ledger.executions,
      TaskQueue.isTerminal kv.2.execution.status = false →
      kv ∈ (TaskQueue.cleanup 0 c8Ledger).2.executions) := by
  have hnd : (c8Ledger.executions.map Prod.fst).Nodup := by
    show (["e1"] : List String).Nodup
    exact List.nodup_singleton _
  obtain ⟨h1, -, -, h4, -⟩ := C8_cleanup 0 c8Ledger hnd
  refine ⟨?_, h4⟩
  rw [h1]
  rfl


end Moltworker
